import Mathlib

/-!
A thread-safe FIFO event queue (`event_queue.c`).

Shallow embedding of `src/event_queue.c`.

* Node pointers (`struct event_queue_entry*`) are `Option Nat`: `none` is `NULL`,
  `some a` is the address `a`.  The node storage is a partial map from addresses to
  nodes; `mem a = none` means that no live node is stored at `a`.
* Payloads and watcher contexts (`void*`) are `Nat` (`0` is `NULL`); a watcher callback
  pointer is `Option Nat`.
* The counters `nr_events` and `nr_await` are integers.  Their declaration lives in
  `event_queue.h`, which is not part of the sources at hand; the watcher callbacks
  receive them as `int`.  They are modelled as unbounded integers.
* Calls that leave the module (condition signal and waits, watcher callbacks, the node
  release, the leak report) are recorded, in program order, in a trace.
* The functions run while the caller holds `eq->lock`; the mutex calls themselves are not
  modelled.  A condition wait releases the lock: what the other threads did to the shared
  state before the lock is reacquired, and the code the wait returns, is supplied by a
  `WaitOutcome`.  A blocking call is run against a finite schedule of such outcomes; when
  the schedule is used up and the loop still wants to wait, the run stops with
  `Stop.still_waiting`.
* A failing `assert` stops the run with `Stop.assert_failed`, a dereference of an address
  without a live node with `Stop.bad_deref`.
* The draining loop of `event_queue_destory` is run with a bound on the number of pops;
  reaching the bound stops the run with `Stop.out_of_fuel`.
-/

namespace EventQueue

/-- Value of `ETIMEDOUT` from `<errno.h>` (Linux). -/
def ETIMEDOUT : Int := 110

/-- The node type `struct event_queue_entry`: a payload and the link to the next node. -/
structure event_queue_entry where
  next : Option Nat
  event : Nat
deriving DecidableEq

/-- The data fields of `struct event_queue` (the mutex and the condition variable carry no
data in this model). -/
structure event_queue where
  head : Option Nat
  tail : Option Nat
  nr_events : Int
  nr_await : Int
  ne_watcher_data : Nat
  ne_watcher_cb : Option Nat
  nt_watcher_data : Nat
  nt_watcher_cb : Option Nat
deriving DecidableEq

/-- Shared state: the queue structure `*eq`, the node storage, and the file-scope
variable `mempool_eqent`. -/
structure World where
  eq : event_queue
  mem : Nat → Option event_queue_entry
  mempool_eqent : Option Nat

/-- Calls that leave the module, as recorded in the trace. -/
inductive Ev where
  | cond_signal
  | cond_wait
  | cond_timedwait (code : Int)
  | ne_watcher (cb data : Nat) (nr : Int) (dir : Int)
  | nt_watcher (cb data : Nat) (nr : Int) (dir : Int)
  | eqent_free (e : Nat)
  | lost (event : Nat)
  | memory_pool_new
  | memory_pool_del (pool : Nat)
deriving DecidableEq

/-- Reasons for a run not to reach its `return`. -/
inductive Stop where
  | assert_failed
  | bad_deref
  | still_waiting
  | out_of_fuel
deriving DecidableEq

/-- What a call returns and does: the return value, the shared state afterwards, the
trace of outside calls, the value stored through `pevent` (if a store happened) and the
value stored to `errno` (if a store happened). -/
structure Res where
  ret : Int
  w : World
  trace : List Ev := []
  out : Option Nat := none
  errno : Option Int := none

/-- One return of `pthread_cond_wait` / `pthread_cond_timedwait`: the code it returns and
what the other threads did to the shared state while the lock was released. -/
structure WaitOutcome where
  code : Int
  wake : World → World

/-- Store `v` at address `a`. -/
def store (mem : Nat → Option event_queue_entry) (a : Nat) (v : event_queue_entry) :
    Nat → Option event_queue_entry :=
  fun x => if x = a then some v else mem x

/-- Release the node at address `a` (`eqent_free`). -/
def release (mem : Nat → Option event_queue_entry) (a : Nat) :
    Nat → Option event_queue_entry :=
  fun x => if x = a then none else mem x

/-- `event_queue_push_unsafe`; `alloc` is what `eqent_alloc()` returns. -/
def event_queue_push_unsafe (alloc : Option Nat) (w : World) (event : Nat) :
    Except Stop Res :=
  match alloc with
  | none => .ok { ret := -1, w := w }
  | some e =>
    let mem1 := store w.mem e { next := none, event := event }
    match w.eq.tail with
    | none =>
      if w.eq.head = none then
        .ok { ret := 0,
              w := { w with
                eq := { w.eq with head := some e, tail := some e,
                                  nr_events := w.eq.nr_events + 1 },
                mem := mem1 } }
      else .error .assert_failed
    | some t =>
      if w.eq.head ≠ none then
        match mem1 t with
        | none => .error .bad_deref
        | some tn =>
          .ok { ret := 0,
                w := { w with
                  eq := { w.eq with tail := some e, nr_events := w.eq.nr_events + 1 },
                  mem := store mem1 t { tn with next := some e } } }
      else .error .assert_failed

/-- `event_queue_pop_unsafe`; `pevent` tells whether the out-pointer is non-`NULL`. -/
def event_queue_pop_unsafe (w : World) (pevent : Bool) : Except Stop Res :=
  match w.eq.head with
  | none =>
    if w.eq.tail = none then .ok { ret := -1, w := w } else .error .assert_failed
  | some e =>
    if w.eq.tail = none then .error .assert_failed
    else
      match w.mem e with
      | none => .error .bad_deref
      | some en =>
        if en.next = none ∧ w.eq.tail ≠ some e then .error .assert_failed
        else
          .ok { ret := 0,
                w := { w with
                  eq := { w.eq with
                    head := en.next,
                    tail := if en.next = none then none else w.eq.tail,
                    nr_events := w.eq.nr_events - 1 },
                  mem := release w.mem e },
                trace := [Ev.eqent_free e],
                out := if pevent then some en.event else none }

/-- `event_queue_call_ne_watcher_unsafe`: the calls it makes. -/
def event_queue_call_ne_watcher_unsafe (eq : event_queue) (dir : Int) : List Ev :=
  match eq.ne_watcher_cb with
  | some cb => [Ev.ne_watcher cb eq.ne_watcher_data eq.nr_events dir]
  | none => []

/-- `event_queue_call_nt_watcher_unsafe`: the calls it makes. -/
def event_queue_call_nt_watcher_unsafe (eq : event_queue) (dir : Int) : List Ev :=
  match eq.nt_watcher_cb with
  | some cb => [Ev.nt_watcher cb eq.nt_watcher_data eq.nr_await dir]
  | none => []

/-- `mempool_eqent_init`; `pool_new` is what `memory_pool_new` returns if it is called. -/
def mempool_eqent_init (pool_new : Option Nat) (w : World) : Res :=
  match w.mempool_eqent with
  | none =>
    { ret := if pool_new.isSome then 0 else -1,
      w := { w with mempool_eqent := pool_new },
      trace := [Ev.memory_pool_new] }
  | some _ => { ret := 0, w := w }

/-- `mempool_eqent_destory`. -/
def mempool_eqent_destory (w : World) : World × List Ev :=
  match w.mempool_eqent with
  | some p => ({ w with mempool_eqent := none }, [Ev.memory_pool_del p])
  | none => (w, [])

/-- `event_queue_init`. -/
def event_queue_init (pool_new : Option Nat) (w : World) : Res :=
  let r := mempool_eqent_init pool_new w
  if r.ret < 0 then { ret := -1, w := r.w, trace := r.trace }
  else
    { ret := 0,
      w := { r.w with
        eq := { head := none, tail := none, nr_events := 0, nr_await := 0,
                ne_watcher_data := 0, ne_watcher_cb := none,
                nt_watcher_data := 0, nt_watcher_cb := none } },
      trace := r.trace }

/-- `event_queue_post`. -/
def event_queue_post (alloc : Option Nat) (w : World) (event : Nat) : Except Stop Res :=
  match event_queue_push_unsafe alloc w event with
  | .error s => .error s
  | .ok r =>
    if r.ret = 0 then
      .ok { r with
        trace := r.trace ++ [Ev.cond_signal] ++ event_queue_call_ne_watcher_unsafe r.w.eq 1 }
    else .ok r

/-- The `while` loop of `event_queue_timedwait`, entered with the current `pth_error`;
returns the result of the last pop together with the final `pth_error`. -/
def timedwait_loop (pevent : Bool) :
    List WaitOutcome → World → Int → Except Stop (Res × Int)
  | env, w, pth_error =>
    match event_queue_pop_unsafe w pevent with
    | .error s => .error s
    | .ok r =>
      if r.ret < 0 ∧ pth_error ≠ ETIMEDOUT then
        match env with
        | [] => .error .still_waiting
        | o :: env1 =>
          match timedwait_loop pevent env1 (o.wake r.w) o.code with
          | .error s => .error s
          | .ok (r1, pe) =>
            .ok ({ r1 with trace := r.trace ++ Ev.cond_timedwait o.code :: r1.trace }, pe)
      else .ok (r, pth_error)

/-- `event_queue_timedwait`, run against the schedule `env` of condition-wait outcomes. -/
def event_queue_timedwait (env : List WaitOutcome) (w : World) (pevent : Bool) :
    Except Stop Res :=
  let w1 := { w with eq := { w.eq with nr_await := w.eq.nr_await + 1 } }
  let t1 := event_queue_call_nt_watcher_unsafe w1.eq 1
  match timedwait_loop pevent env w1 0 with
  | .error s => .error s
  | .ok (r, pth_error) =>
    let t2 := if ¬ (r.ret < 0) then event_queue_call_ne_watcher_unsafe r.w.eq (-1) else []
    let w2 := { r.w with eq := { r.w.eq with nr_await := r.w.eq.nr_await - 1 } }
    let t3 := event_queue_call_nt_watcher_unsafe w2.eq (-1)
    .ok { ret := r.ret, w := w2, trace := t1 ++ r.trace ++ t2 ++ t3, out := r.out,
          errno := if r.ret < 0 then some pth_error else none }

/-- The `while` loop of `event_queue_wait`. -/
def wait_loop (pevent : Bool) : List WaitOutcome → World → Except Stop Res
  | env, w =>
    match event_queue_pop_unsafe w pevent with
    | .error s => .error s
    | .ok r =>
      if r.ret < 0 then
        match env with
        | [] => .error .still_waiting
        | o :: env1 =>
          match wait_loop pevent env1 (o.wake r.w) with
          | .error s => .error s
          | .ok r1 => .ok { r1 with trace := r.trace ++ Ev.cond_wait :: r1.trace }
      else .ok r

/-- `event_queue_wait`, run against the schedule `env` of condition-wait outcomes. -/
def event_queue_wait (env : List WaitOutcome) (w : World) (pevent : Bool) :
    Except Stop Res :=
  let w1 := { w with eq := { w.eq with nr_await := w.eq.nr_await + 1 } }
  let t1 := event_queue_call_nt_watcher_unsafe w1.eq 1
  match wait_loop pevent env w1 with
  | .error s => .error s
  | .ok r =>
    let t2 := event_queue_call_ne_watcher_unsafe r.w.eq (-1)
    let w2 := { r.w with eq := { r.w.eq with nr_await := r.w.eq.nr_await - 1 } }
    let t3 := event_queue_call_nt_watcher_unsafe w2.eq (-1)
    .ok { ret := 0, w := w2, trace := t1 ++ r.trace ++ t2 ++ t3, out := r.out }

/-- `event_queue_trywait`. -/
def event_queue_trywait (w : World) (pevent : Bool) : Except Stop Res :=
  match event_queue_pop_unsafe w pevent with
  | .error s => .error s
  | .ok r =>
    if ¬ (r.ret < 0) then
      .ok { r with trace := r.trace ++ event_queue_call_ne_watcher_unsafe r.w.eq (-1) }
    else .ok r

/-- The `while` loop of `event_queue_destory`, run for at most `fuel` pops: every popped
payload is reported as lost. -/
def destory_loop : Nat → World → Except Stop (World × List Ev)
  | 0, _ => .error .out_of_fuel
  | fuel + 1, w =>
    match event_queue_pop_unsafe w true with
    | .error s => .error s
    | .ok r =>
      if r.ret = 0 then
        match destory_loop fuel r.w with
        | .error s => .error s
        | .ok (w1, t) => .ok (w1, r.trace ++ Ev.lost (r.out.getD 0) :: t)
      else .ok (r.w, r.trace)

/-- `event_queue_destory` (it returns nothing; `ret` is `0`). -/
def event_queue_destory (fuel : Nat) (w : World) : Except Stop Res :=
  match destory_loop fuel w with
  | .error s => .error s
  | .ok (w1, t) =>
    .ok { ret := 0, w := (mempool_eqent_destory w1).1,
          trace := t ++ (mempool_eqent_destory w1).2 }

/-- `event_queue_register_event_watcher` (it returns nothing; `ret` is `0`). -/
def event_queue_register_event_watcher (w : World) (data : Nat) (callback : Option Nat) :
    Res :=
  let w1 := { w with eq := { w.eq with ne_watcher_data := data, ne_watcher_cb := callback } }
  { ret := 0, w := w1, trace := event_queue_call_ne_watcher_unsafe w1.eq 0 }

/-- `event_queue_register_thread_watcher` (it returns nothing; `ret` is `0`). -/
def event_queue_register_thread_watcher (w : World) (data : Nat) (callback : Option Nat) :
    Res :=
  let w1 := { w with eq := { w.eq with nt_watcher_data := data, nt_watcher_cb := callback } }
  { ret := 0, w := w1, trace := event_queue_call_nt_watcher_unsafe w1.eq 0 }

/-- Scenario driver: one `event_queue_post` per entry of `posts`, in order; an entry
gives the address the allocator hands out for that post and the payload.  Returns the
return values and the final state. -/
def post_all : List (Nat × Nat) → World → Except Stop (List Int × World)
  | [], w => .ok ([], w)
  | (a, x) :: rest, w =>
    match event_queue_post (some a) w x with
    | .error s => .error s
    | .ok r =>
      match post_all rest r.w with
      | .error s => .error s
      | .ok (rets, w1) => .ok (r.ret :: rets, w1)

/-- Scenario driver: `k` calls of `event_queue_trywait` with a non-`NULL` out-pointer.
Returns, per call, the return value and the value stored through the out-pointer, and
the final state. -/
def trywait_all : Nat → World → Except Stop (List (Int × Option Nat) × World)
  | 0, w => .ok ([], w)
  | k + 1, w =>
    match event_queue_trywait w true with
    | .error s => .error s
    | .ok r =>
      match trywait_all k r.w with
      | .error s => .error s
      | .ok (outs, w1) => .ok ((r.ret, r.out) :: outs, w1)

/-- The watcher registrations of a queue. -/
def watchers (q : event_queue) : Nat × Option Nat × Nat × Option Nat :=
  (q.ne_watcher_data, q.ne_watcher_cb, q.nt_watcher_data, q.nt_watcher_cb)

/-- Trace entries that are condition waits. -/
def is_wait : Ev → Bool
  | .cond_wait => true
  | .cond_timedwait _ => true
  | _ => false

/-- Trace entries that are calls of the event watcher. -/
def is_ne_watcher : Ev → Bool
  | .ne_watcher _ _ _ _ => true
  | _ => false

/-- Trace entries that are calls of the waiter watcher. -/
def is_nt_watcher : Ev → Bool
  | .nt_watcher _ _ _ _ => true
  | _ => false

/-- Example state: an uninitialised queue structure, no live node, allocator not yet
created. -/
def w_raw : World :=
  { eq := { head := some 5, tail := none, nr_events := 9, nr_await := 4,
            ne_watcher_data := 1, ne_watcher_cb := some 2,
            nt_watcher_data := 3, nt_watcher_cb := none },
    mem := fun _ => none,
    mempool_eqent := none }

/-- Example state: a queue holding payloads `10, 20` in nodes at addresses `1, 2`, with
one registered waiter, an event watcher `(cb 70, context 7)` and a waiter watcher
`(cb 80, context 8)`. -/
def w_two : World :=
  { eq := { head := some 1, tail := some 2, nr_events := 2, nr_await := 1,
            ne_watcher_data := 7, ne_watcher_cb := some 70,
            nt_watcher_data := 8, nt_watcher_cb := some 80 },
    mem := fun a =>
      if a = 1 then some { next := some 2, event := 10 }
      else if a = 2 then some { next := none, event := 20 }
      else none,
    mempool_eqent := some 100 }

/-- Example state: the empty queue with the registrations of `w_two`. -/
def w_empty : World :=
  { eq := { head := none, tail := none, nr_events := 0, nr_await := 1,
            ne_watcher_data := 7, ne_watcher_cb := some 70,
            nt_watcher_data := 8, nt_watcher_cb := some 80 },
    mem := fun _ => none,
    mempool_eqent := some 100 }

/-- The part of the state a waiter accounts for: the waiter count and the waiter-watcher
registration are the same in `u` and `v`. -/
def same_waiters (u v : World) : Prop :=
  u.eq.nr_await = v.eq.nr_await ∧ u.eq.nt_watcher_cb = v.eq.nt_watcher_cb ∧
    u.eq.nt_watcher_data = v.eq.nt_watcher_data

/-- The call of the waiter watcher registered in `q`, with count `nr` and direction
`dir`; nothing when no waiter watcher is registered. -/
def nt_call (q : event_queue) (nr dir : Int) : List Ev :=
  match q.nt_watcher_cb with
  | some cb => [Ev.nt_watcher cb q.nt_watcher_data nr dir]
  | none => []

/-- The call of the event watcher registered in `q`, with count `nr` and direction
`dir`; nothing when no event watcher is registered. -/
def ne_call (q : event_queue) (nr dir : Int) : List Ev :=
  match q.ne_watcher_cb with
  | some cb => [Ev.ne_watcher cb q.ne_watcher_data nr dir]
  | none => []

/-- Example wait outcome: the wait times out and no other thread touched the state. -/
def o_timeout : WaitOutcome :=
  { code := ETIMEDOUT, wake := fun w => w }

/-- Example wait outcome: a wake-up with code `0` that found nothing changed. -/
def o_spurious : WaitOutcome :=
  { code := 0, wake := fun w => w }

/-! ## Well-formed queues -/

/-- `Chain mem p nodes`: following `next` links from `p` visits exactly the live nodes
`nodes` (address and payload of each, in order) and then reaches `NULL`. -/
def Chain (mem : Nat → Option event_queue_entry) : Option Nat → List (Nat × Nat) → Prop
  | p, [] => p = none
  | p, n :: rest =>
    p = some n.1 ∧
      match mem n.1 with
      | some e => e.event = n.2 ∧ Chain mem e.next rest
      | none => False

instance Chain.decide (mem : Nat → Option event_queue_entry) :
    (p : Option Nat) → (nodes : List (Nat × Nat)) → Decidable (Chain mem p nodes)
  | p, [] => inferInstanceAs (Decidable (p = none))
  | p, n :: rest =>
    match h : mem n.1 with
    | some e =>
      have : Decidable (Chain mem e.next rest) := Chain.decide mem e.next rest
      decidable_of_iff (p = some n.1 ∧ e.event = n.2 ∧ Chain mem e.next rest)
        (by simp [Chain, h])
    | none => isFalse (by simp [Chain, h])

/-- The queue of `w` is well formed with nodes `nodes`: the nodes reachable from `head`
are exactly `nodes`, `tail` is the last of them (absent when there is none), and
`nr_events` is their number. -/
structure WF (w : World) (nodes : List (Nat × Nat)) : Prop where
  chain : Chain w.mem w.eq.head nodes
  tail : w.eq.tail = (nodes.map Prod.fst).getLast?
  count : w.eq.nr_events = (nodes.length : Int)

instance WF.decide (w : World) (nodes : List (Nat × Nat)) : Decidable (WF w nodes) :=
  decidable_of_iff
    (Chain w.mem w.eq.head nodes ∧ w.eq.tail = (nodes.map Prod.fst).getLast? ∧
      w.eq.nr_events = (nodes.length : Int))
    ⟨fun h => ⟨h.1, h.2.1, h.2.2⟩, fun h => ⟨h.chain, h.tail, h.count⟩⟩

/-- `quiet pre w`: starting from state `w`, every condition wait of `pre` returns a code
other than `ETIMEDOUT` and finds the queue empty when the lock is reacquired. -/
def quiet : List WaitOutcome → World → Prop
  | [], _ => True
  | o :: rest, w =>
    o.code ≠ ETIMEDOUT ∧ WF (o.wake w) [] ∧ quiet rest (o.wake w)

/-- The state after the wake-ups of `pre`, when none of the pops in between succeeds. -/
def wakes : List WaitOutcome → World → World
  | [], w => w
  | o :: rest, w => wakes rest (o.wake w)

/-- The count invariant of the queue store. -/
def Inv (w : World) : Prop :=
  ∃ nodes : List (Nat × Nat), WF w nodes

/-- Trace entries that are node releases. -/
def is_free : Ev → Bool
  | .eqent_free _ => true
  | _ => false

/-- Trace entries that are leak reports. -/
def is_lost : Ev → Bool
  | .lost _ => true
  | _ => false

/-- Scenario driver: register event watcher `(dA, A)`, then event watcher `(dB, B)`;
returns the result of the second registration. -/
def register_event_twice (w : World) (dA : Nat) (A : Option Nat) (dB : Nat)
    (B : Option Nat) : Res :=
  event_queue_register_event_watcher (event_queue_register_event_watcher w dA A).w dB B

/-- Scenario driver: register waiter watcher `(dA, A)`, then waiter watcher `(dB, B)`;
returns the result of the second registration. -/
def register_thread_twice (w : World) (dA : Nat) (A : Option Nat) (dB : Nat)
    (B : Option Nat) : Res :=
  event_queue_register_thread_watcher (event_queue_register_thread_watcher w dA A).w dB B

/-- The value of `pth_error` after the waits of `pre`, when it was `pe` before them. -/
def last_code : List WaitOutcome → Int → Int
  | [], pe => pe
  | o :: rest, _ => last_code rest o.code

/-- `ne_replay cb data n t`: follow the event-watcher calls of the trace `t`, starting
from the count `n`.  Every call must be a call of `cb` with context `data`, with direction
`+1` or `-1` and the count reached by that step; the result is the count after the last
call, or `none` when a call does not fit. -/
def ne_replay (cb data : Nat) : Int → List Ev → Option Int
  | n, [] => some n
  | n, Ev.ne_watcher c d nr dir :: t =>
    if c = cb ∧ d = data ∧ (dir = 1 ∨ dir = -1) ∧ nr = n + dir then ne_replay cb data nr t
    else none
  | n, Ev.cond_signal :: t => ne_replay cb data n t
  | n, Ev.cond_wait :: t => ne_replay cb data n t
  | n, Ev.cond_timedwait _ :: t => ne_replay cb data n t
  | n, Ev.nt_watcher _ _ _ _ :: t => ne_replay cb data n t
  | n, Ev.eqent_free _ :: t => ne_replay cb data n t
  | n, Ev.lost _ :: t => ne_replay cb data n t
  | n, Ev.memory_pool_new :: t => ne_replay cb data n t
  | n, Ev.memory_pool_del _ :: t => ne_replay cb data n t

/-- The event-watcher registration (callback and context) is the same in `u` and `v`. -/
def same_ne_watcher (u v : World) : Prop :=
  u.eq.ne_watcher_cb = v.eq.ne_watcher_cb ∧ u.eq.ne_watcher_data = v.eq.ne_watcher_data

/-- Example wait outcome: while the lock was released another thread posted payload `10`
(node at address `1`) to the empty queue; the wait returns `0`. -/
def o_posted : WaitOutcome :=
  { code := 0,
    wake := fun w =>
      { w with
        eq := { w.eq with head := some 1, tail := some 1, nr_events := 1 },
        mem := store w.mem 1 { next := none, event := 10 } } }

/-- The outside calls of the draining loop of `event_queue_destory` on the nodes
`nodes`: per node, its release and the report of its payload. -/
def drain_trace (nodes : List (Nat × Nat)) : List Ev :=
  nodes.flatMap (fun n => [Ev.eqent_free n.1, Ev.lost n.2])

/-- `event_queue_new`; `fresh` is what `malloc` returns: `none` for `NULL`, otherwise the
(arbitrary) content of the new block.  The result is the returned queue structure
(`none` for `NULL`), the state of everything else, and the outside calls. -/
def event_queue_new (fresh : Option event_queue) (pool_new : Option Nat) (w : World) :
    Option event_queue × World × List Ev :=
  match fresh with
  | none => (none, w, [])
  | some q =>
    let r := event_queue_init pool_new { w with eq := q }
    if r.ret < 0 then (none, { r.w with eq := w.eq }, r.trace)
    else (some r.w.eq, { r.w with eq := w.eq }, r.trace)

/-- The queue structure as `event_queue_init` leaves it. -/
def eq_initial : event_queue :=
  { head := none, tail := none, nr_events := 0, nr_await := 0,
    ne_watcher_data := 0, ne_watcher_cb := none,
    nt_watcher_data := 0, nt_watcher_cb := none }

/-- Scenario with two queues, step 1: `event_queue_init` of a first queue `Q1`; the
allocator does not exist yet and `memory_pool_new` returns the pool `100`. -/
def two_queues_init1 : Res :=
  event_queue_init (some 100) w_raw

/-- Scenario with two queues, step 2: `event_queue_init` of a second queue `Q2` (another
structure, with arbitrary prior content) in the state left by step 1. -/
def two_queues_init2 : Res :=
  event_queue_init (some 200) { two_queues_init1.w with eq := w_raw.eq }

/-- Scenario with two queues, step 3: a post of payload `10` to `Q2`, its node allocated
at address `1`. -/
def two_queues_post2 : Except Stop Res :=
  event_queue_post (some 1) two_queues_init2.w 10

/-- Scenario with two queues, step 4: `event_queue_destory` of `Q1` in the state `w2`
left by the post to `Q2`. -/
def two_queues_destory1 (w2 : World) : Except Stop Res :=
  event_queue_destory 1 { w2 with eq := two_queues_init1.w.eq }

/-- Value of `EINVAL` from `<errno.h>` (Linux). -/
def EINVAL : Int := 22

/-- Example wait outcome: the wait fails with `EINVAL` and nothing changed. -/
def o_einval : WaitOutcome :=
  { code := EINVAL, wake := fun w => w }

/-- A call of one of the two store operations: `event_queue_push_unsafe` with what
`eqent_alloc()` returns and the payload, or `event_queue_pop_unsafe` with whether the
out-pointer is non-`NULL`. -/
inductive Op where
  | push (alloc : Option Nat) (event : Nat)
  | pop (pevent : Bool)

/-- One store operation on the linked-list store. -/
def store_step : Op → World → Except Stop Res
  | .push alloc event, w => event_queue_push_unsafe alloc w event
  | .pop pevent, w => event_queue_pop_unsafe w pevent

/-- Scenario driver: the store operations `ops` in order; returns, per call, the return
value and the value stored through the out-pointer, and the final state. -/
def run_ops : List Op → World → Except Stop (List (Int × Option Nat) × World)
  | [], w => .ok ([], w)
  | op :: rest, w =>
    match store_step op w with
    | .error s => .error s
    | .ok r =>
      match run_ops rest r.w with
      | .error s => .error s
      | .ok (outs, w1) => .ok ((r.ret, r.out) :: outs, w1)

/-- The abstract list queue, in the words of the specification: a successful push
appends the payload at the end and returns `0`, a failed push returns `-1` and changes
nothing; a pop on a non-empty list returns `0`, delivers the first element (when an
out-pointer is given) and leaves the rest; a pop on the empty list returns `-1` and
leaves it empty. -/
def abs_step : Op → List Nat → (Int × Option Nat) × List Nat
  | .push (some _) x, l => ((0, none), l ++ [x])
  | .push none _, l => ((-1, none), l)
  | .pop _, [] => ((-1, none), [])
  | .pop pevent, x :: l => ((0, if pevent then some x else none), l)

/-- The abstract list queue run over `ops`. -/
def abs_run : List Op → List Nat → List (Int × Option Nat) × List Nat
  | [], l => ([], l)
  | op :: rest, l =>
    ((abs_step op l).1 :: (abs_run rest (abs_step op l).2).1,
      (abs_run rest (abs_step op l).2).2)

/-- `fresh_allocs ops w`: in the run of `ops` from `w`, every address handed out by the
allocator holds no live node at the time of the push. -/
def fresh_allocs : List Op → World → Prop
  | [], _ => True
  | op :: rest, w =>
    (match op with
     | .push (some a) _ => w.mem a = none
     | _ => True) ∧
    (match store_step op w with
     | .ok r => fresh_allocs rest r.w
     | .error _ => True)

/-- `only_registered q t`: every watcher call in the trace `t` is a call of the watcher of
its kind registered in `q`, with the context registered in `q`. -/
def only_registered (q : event_queue) (t : List Ev) : Prop :=
  ∀ e ∈ t,
    (∀ cb d n dir, e = Ev.ne_watcher cb d n dir →
      q.ne_watcher_cb = some cb ∧ q.ne_watcher_data = d) ∧
    (∀ cb d n dir, e = Ev.nt_watcher cb d n dir →
      q.nt_watcher_cb = some cb ∧ q.nt_watcher_data = d)

/-! ## Lemmas on chains -/

theorem chain_cons_iff (mem : Nat → Option event_queue_entry) (p : Option Nat)
    (n : Nat × Nat) (rest : List (Nat × Nat)) :
    Chain mem p (n :: rest) ↔
      p = some n.1 ∧ ∃ nx, mem n.1 = some { next := nx, event := n.2 } ∧ Chain mem nx rest := by
  constructor
  · intro h
    refine ⟨h.1, ?_⟩
    have h2 := h.2
    cases hm : mem n.1 with
    | none => simp [hm] at h2
    | some e =>
      simp only [hm] at h2
      refine ⟨e.next, ?_, h2.2⟩
      cases e
      simp_all
  · rintro ⟨hp, nx, hm, hc⟩
    refine ⟨hp, ?_⟩
    rw [hm]
    exact ⟨rfl, hc⟩

theorem chain_det (mem : Nat → Option event_queue_entry) :
    ∀ (l1 l2 : List (Nat × Nat)) (p : Option Nat),
      Chain mem p l1 → Chain mem p l2 → l1 = l2
  | [], [], _, _, _ => rfl
  | [], _ :: _, p, h1, h2 => by
    have a : p = none := h1
    have b := h2.1
    simp [a] at b
  | _ :: _, [], p, h1, h2 => by
    have a : p = none := h2
    have b := h1.1
    simp [a] at b
  | n1 :: r1, n2 :: r2, p, h1, h2 => by
    obtain ⟨hp1, nx1, hm1, hc1⟩ := (chain_cons_iff mem p n1 r1).1 h1
    obtain ⟨hp2, nx2, hm2, hc2⟩ := (chain_cons_iff mem p n2 r2).1 h2
    have e1 : n1.1 = n2.1 := by simpa [hp1] using hp2
    rw [e1, hm2] at hm1
    simp only [Option.some.injEq, event_queue_entry.mk.injEq] at hm1
    have e2 : n1 = n2 := Prod.ext e1 hm1.2.symm
    rw [← hm1.1] at hc1
    rw [e2, chain_det mem r1 r2 nx2 hc1 hc2]

theorem chain_of_mem (mem : Nat → Option event_queue_entry) :
    ∀ (l : List (Nat × Nat)) (p : Option Nat) (a : Nat),
      Chain mem p l → a ∈ l.map Prod.fst →
        ∃ l1, Chain mem (some a) l1 ∧ l1.length ≤ l.length
  | [], _, _, _, ha => by simp at ha
  | n :: rest, p, a, h, ha => by
    obtain ⟨hp, nx, hm, hc⟩ := (chain_cons_iff mem p n rest).1 h
    by_cases e : a = n.1
    · exact ⟨n :: rest, by rw [e, ← hp]; exact h, le_refl _⟩
    · have ha1 : a ∈ rest.map Prod.fst := by
        simp only [List.map_cons, List.mem_cons] at ha
        exact ha.resolve_left e
      obtain ⟨l1, h1, h2⟩ := chain_of_mem mem rest nx a hc ha1
      exact ⟨l1, h1, by simp only [List.length_cons]; omega⟩

theorem chain_head_not_mem (mem : Nat → Option event_queue_entry) (p : Option Nat)
    (n : Nat × Nat) (rest : List (Nat × Nat)) (h : Chain mem p (n :: rest)) :
    n.1 ∉ rest.map Prod.fst := by
  intro hmem
  obtain ⟨hp, nx, _, hc⟩ := (chain_cons_iff mem p n rest).1 h
  obtain ⟨l1, h1, h2⟩ := chain_of_mem mem rest nx n.1 hc hmem
  rw [hp] at h
  have := chain_det mem l1 (n :: rest) (some n.1) h1 h
  rw [this] at h2
  simp only [List.length_cons] at h2
  omega

theorem chain_release (mem : Nat → Option event_queue_entry) (a : Nat) :
    ∀ (l : List (Nat × Nat)) (p : Option Nat),
      Chain mem p l → a ∉ l.map Prod.fst → Chain (release mem a) p l
  | [], _, h, _ => h
  | n :: rest, p, h, ha => by
    obtain ⟨hp, nx, hm, hc⟩ := (chain_cons_iff mem p n rest).1 h
    simp only [List.map_cons, List.mem_cons, not_or] at ha
    refine (chain_cons_iff _ p n rest).2 ⟨hp, nx, ?_, chain_release mem a rest nx hc ha.2⟩
    have : n.1 ≠ a := fun e => ha.1 e.symm
    simp [release, this, hm]

theorem chain_link (mem : Nat → Option event_queue_entry) (t v e x : Nat)
    (hf : mem e = none) :
    ∀ (l : List (Nat × Nat)) (p : Option Nat),
      Chain mem p (l ++ [(t, v)]) →
        Chain (store (store mem e { next := none, event := x }) t
                { next := some e, event := v }) p (l ++ [(t, v), (e, x)])
  | [], p, h => by
    obtain ⟨hp, nx, hm, _⟩ := (chain_cons_iff mem p (t, v) []).1 h
    have hne : e ≠ t := by
      intro c
      rw [c] at hf
      simp [hf] at hm
    refine (chain_cons_iff _ p (t, v) [(e, x)]).2 ⟨hp, some e, by simp [store], ?_⟩
    exact (chain_cons_iff _ (some e) (e, x) []).2 ⟨rfl, none, by simp [store, hne], rfl⟩
  | n :: l, p, h => by
    have h1 : Chain mem p (n :: (l ++ [(t, v)])) := h
    obtain ⟨hp, nx, hm, hc⟩ := (chain_cons_iff mem p n (l ++ [(t, v)])).1 h1
    have hnt : n.1 ≠ t := by
      intro c
      have := chain_head_not_mem mem p n (l ++ [(t, v)]) h1
      simp [c] at this
    have hne : n.1 ≠ e := by
      intro c
      rw [c, hf] at hm
      simp at hm
    have ih := chain_link mem t v e x hf l nx hc
    exact (chain_cons_iff _ p n (l ++ [(t, v), (e, x)])).2
      ⟨hp, nx, by simp [store, hnt, hne, hm], ih⟩

theorem chain_last_entry (mem : Nat → Option event_queue_entry) (t v : Nat) :
    ∀ (l : List (Nat × Nat)) (p : Option Nat),
      Chain mem p (l ++ [(t, v)]) → mem t = some { next := none, event := v }
  | [], p, h => by
    obtain ⟨_, nx, hm, hc⟩ := (chain_cons_iff mem p (t, v) []).1 h
    have : nx = none := hc
    rw [hm, this]
  | n :: l, p, h => by
    obtain ⟨_, nx, _, hc⟩ := (chain_cons_iff mem p n (l ++ [(t, v)])).1 h
    exact chain_last_entry mem t v l nx hc

/-! ## The store operations on a well-formed queue -/

theorem wf_nil_fields (w : World) (h : WF w []) :
    w.eq.head = none ∧ w.eq.tail = none ∧ w.eq.nr_events = 0 := by
  refine ⟨h.chain, by simpa using h.tail, by simpa using h.count⟩

theorem push_unsafe_wf (w : World) (nodes : List (Nat × Nat)) (e x : Nat)
    (h : WF w nodes) (hf : w.mem e = none) :
    ∃ w1, event_queue_push_unsafe (some e) w x = .ok { ret := 0, w := w1 } ∧
      WF w1 (nodes ++ [(e, x)]) ∧ w1.eq.nr_events = w.eq.nr_events + 1 ∧
      w1.eq.nr_await = w.eq.nr_await ∧ watchers w1.eq = watchers w.eq ∧
      w1.mempool_eqent = w.mempool_eqent ∧
      (∀ a, a ≠ e → w.mem a = none → w1.mem a = none) := by
  rcases List.eq_nil_or_concat nodes with hn | ⟨l, ⟨t, v⟩, hn⟩
  · subst hn
    obtain ⟨hh, ht, hc⟩ := wf_nil_fields w h
    refine ⟨{ w with
        eq := { w.eq with head := some e, tail := some e, nr_events := w.eq.nr_events + 1 },
        mem := store w.mem e { next := none, event := x } }, ?_, ?_, rfl, rfl, rfl, rfl, ?_⟩
    · simp [ event_queue_push_unsafe, ht, hh]
    · refine ⟨?_, rfl, ?_⟩
      · exact (chain_cons_iff _ _ (e, x) []).2 ⟨rfl, none, by simp [store], rfl⟩
      · simp [hc]
    · intro a ha hm
      simp [store, ha, hm]
  · rw [List.concat_eq_append] at hn
    subst hn
    have hch := h.chain
    have hlast := chain_last_entry w.mem t v l _ hch
    have ht : w.eq.tail = some t := by simpa using h.tail
    have hne : t ≠ e := by
      intro c
      rw [c, hf] at hlast
      simp at hlast
    have hh : w.eq.head ≠ none := by
      intro c
      rw [c] at hch
      cases l with
      | nil => have := hch.1; simp at this
      | cons n l => have := hch.1; simp at this
    have hm1 : store w.mem e { next := none, event := x } t =
        some { next := none, event := v } := by simp [store, hne, hlast]
    refine ⟨{ w with
        eq := { w.eq with tail := some e, nr_events := w.eq.nr_events + 1 },
        mem := store (store w.mem e { next := none, event := x }) t
                 { next := some e, event := v } }, ?_, ?_, rfl, rfl, rfl, rfl, ?_⟩
    · simp [ event_queue_push_unsafe, ht, hh, hm1]
    · refine ⟨?_, ?_, ?_⟩
      · have := chain_link w.mem t v e x hf l _ hch
        simpa using this
      · simp
      · simp only [h.count, List.length_append, List.length_cons, List.length_nil]
        push_cast
        ring
    · intro a ha hm
      have hat : a ≠ t := by
        intro c
        rw [c, hlast] at hm
        simp at hm
      simp [store, ha, hat, hm]

theorem push_unsafe_fail (w : World) (x : Nat) :
    event_queue_push_unsafe none w x = .ok { ret := -1, w := w } := rfl

theorem pop_unsafe_nil (w : World) (pevent : Bool) (h : WF w []) :
    event_queue_pop_unsafe w pevent = .ok { ret := -1, w := w } := by
  obtain ⟨hh, ht, _⟩ := wf_nil_fields w h
  simp [ event_queue_pop_unsafe, hh, ht]

theorem pop_unsafe_cons (w : World) (n : Nat × Nat) (rest : List (Nat × Nat))
    (pevent : Bool) (h : WF w (n :: rest)) :
    ∃ w1, event_queue_pop_unsafe w pevent =
        .ok { ret := 0, w := w1, trace := [Ev.eqent_free n.1],
              out := if pevent then some n.2 else none } ∧
      WF w1 rest ∧ w1.eq.nr_events = w.eq.nr_events - 1 ∧
      w1.eq.nr_await = w.eq.nr_await ∧ watchers w1.eq = watchers w.eq ∧
      w1.mempool_eqent = w.mempool_eqent ∧ w1.mem = release w.mem n.1 := by
  have hch := h.chain
  obtain ⟨hp, nx, hm, hc⟩ := (chain_cons_iff _ _ n rest).1 hch
  have hnot := chain_head_not_mem _ _ n rest hch
  have htl := h.tail
  have hcnt := h.count
  refine ⟨{ w with
      eq := { w.eq with head := nx, tail := if nx = none then none else w.eq.tail,
                        nr_events := w.eq.nr_events - 1 },
      mem := release w.mem n.1 }, ?_, ?_, rfl, rfl, rfl, rfl, rfl⟩
  · cases rest with
    | nil =>
      have hnx : nx = none := hc
      have ht : w.eq.tail = some n.1 := by simpa using htl
      simp [ event_queue_pop_unsafe, hp, ht, hm, hnx]
    | cons m rest1 =>
      have hnx : nx = some m.1 := hc.1
      have ht : w.eq.tail = ((m :: rest1).map Prod.fst).getLast? := by
        simpa [List.getLast?_cons_cons] using htl
      have ht2 : w.eq.tail ≠ none := by
        rw [ht]
        simp [List.getLast?_eq_none_iff]
      simp [ event_queue_pop_unsafe, hp, ht2, hm, hnx]
  · cases rest with
    | nil =>
      have hnx : nx = none := hc
      exact ⟨by simpa [hnx] using hc, by simp [hnx], by simp [hcnt]⟩
    | cons m rest1 =>
      have hnx : nx = some m.1 := hc.1
      have ht : w.eq.tail = ((m :: rest1).map Prod.fst).getLast? := by
        simpa [List.getLast?_cons_cons] using htl
      refine ⟨?_, ?_, ?_⟩
      · exact chain_release w.mem n.1 (m :: rest1) nx hc hnot
      · simpa [hnx] using ht
      · simp only [hcnt, List.length_cons]
        push_cast
        ring

theorem wf_congr (w w1 : World) (nodes : List (Nat × Nat)) (h : WF w nodes)
    (hm : w1.mem = w.mem) (hh : w1.eq.head = w.eq.head) (ht : w1.eq.tail = w.eq.tail)
    (hc : w1.eq.nr_events = w.eq.nr_events) : WF w1 nodes :=
  ⟨by rw [hm, hh]; exact h.chain, by rw [ht]; exact h.tail, by rw [hc]; exact h.count⟩

theorem init_wf (pool_new : Option Nat) (w : World)
    (h : (event_queue_init pool_new w).ret = 0) :
    WF (event_queue_init pool_new w).w [] ∧ (event_queue_init pool_new w).w.mem = w.mem := by
  unfold event_queue_init at h ⊢
  unfold mempool_eqent_init at h ⊢
  cases hp : w.mempool_eqent with
  | some p =>
    simp only [hp] at h ⊢
    exact ⟨⟨rfl, rfl, rfl⟩, rfl⟩
  | none =>
    cases pool_new with
    | none => simp [hp] at h
    | some q =>
      simp only [hp] at h ⊢
      exact ⟨⟨rfl, rfl, rfl⟩, rfl⟩

theorem post_wf (w : World) (nodes : List (Nat × Nat)) (e x : Nat)
    (h : WF w nodes) (hf : w.mem e = none) :
    ∃ w1, event_queue_post (some e) w x =
        .ok { ret := 0, w := w1,
              trace := Ev.cond_signal :: event_queue_call_ne_watcher_unsafe w1.eq 1 } ∧
      WF w1 (nodes ++ [(e, x)]) ∧ w1.eq.nr_events = w.eq.nr_events + 1 ∧
      w1.eq.nr_await = w.eq.nr_await ∧ watchers w1.eq = watchers w.eq ∧
      w1.mempool_eqent = w.mempool_eqent ∧
      (∀ a, a ≠ e → w.mem a = none → w1.mem a = none) := by
  obtain ⟨w1, h1, h2⟩ := push_unsafe_wf w nodes e x h hf
  exact ⟨w1, by simp [event_queue_post, h1], h2⟩

theorem trywait_nil (w : World) (pevent : Bool) (h : WF w []) :
    event_queue_trywait w pevent = .ok { ret := -1, w := w } := by
  simp [event_queue_trywait, pop_unsafe_nil w pevent h]

theorem trywait_cons (w : World) (n : Nat × Nat) (rest : List (Nat × Nat))
    (pevent : Bool) (h : WF w (n :: rest)) :
    ∃ w1, event_queue_trywait w pevent =
        .ok { ret := 0, w := w1,
              trace := Ev.eqent_free n.1 :: event_queue_call_ne_watcher_unsafe w1.eq (-1),
              out := if pevent then some n.2 else none } ∧
      WF w1 rest ∧ w1.eq.nr_events = w.eq.nr_events - 1 ∧
      w1.eq.nr_await = w.eq.nr_await ∧ watchers w1.eq = watchers w.eq ∧
      w1.mempool_eqent = w.mempool_eqent ∧ w1.mem = release w.mem n.1 := by
  obtain ⟨w1, h1, h2⟩ := pop_unsafe_cons w n rest pevent h
  exact ⟨w1, by simp [event_queue_trywait, h1], h2⟩

theorem post_all_wf :
    ∀ (posts : List (Nat × Nat)) (w : World) (nodes : List (Nat × Nat)),
      WF w nodes → (∀ a ∈ posts.map Prod.fst, w.mem a = none) →
      (posts.map Prod.fst).Nodup →
      ∃ w1, post_all posts w = .ok (List.replicate posts.length 0, w1) ∧
        WF w1 (nodes ++ posts)
  | [], w, nodes, h, _, _ => ⟨w, rfl, by simpa using h⟩
  | (a, x) :: rest, w, nodes, h, hf, hnd => by
    obtain ⟨w1, h1, h2, _, _, _, _, h3⟩ :=
      post_wf w nodes a x h (hf a (by simp))
    simp only [List.map_cons, List.nodup_cons] at hnd
    have hf1 : ∀ b ∈ rest.map Prod.fst, w1.mem b = none := by
      intro b hb
      refine h3 b ?_ (hf b (by simp only [List.map_cons, List.mem_cons]; exact Or.inr hb))
      intro c
      exact hnd.1 (c ▸ hb)
    obtain ⟨w2, h4, h5⟩ := post_all_wf rest w1 (nodes ++ [(a, x)]) h2 hf1 hnd.2
    refine ⟨w2, ?_, by simpa using h5⟩
    simp [post_all, h1, h4, List.replicate_succ]

theorem trywait_all_wf :
    ∀ (nodes : List (Nat × Nat)) (w : World), WF w nodes →
      ∃ w1, trywait_all nodes.length w =
          .ok (nodes.map (fun n => ((0 : Int), some n.2)), w1) ∧ WF w1 []
  | [], w, h => ⟨w, rfl, h⟩
  | n :: rest, w, h => by
    obtain ⟨w1, h1, h2, _⟩ := trywait_cons w n rest true h
    obtain ⟨w2, h3, h4⟩ := trywait_all_wf rest w1 h2
    exact ⟨w2, by simp [trywait_all, h1, h3], h4⟩

/-! ## The waiting loops -/

theorem timedwait_loop_pop_ok (pevent : Bool) (env : List WaitOutcome) (w : World)
    (pe : Int) (r : Res) (h : event_queue_pop_unsafe w pevent = .ok r) (h0 : r.ret = 0) :
    timedwait_loop pevent env w pe = .ok (r, pe) := by
  unfold timedwait_loop
  rw [h]
  simp [h0]

theorem timedwait_loop_nil_timeout (pevent : Bool) (env : List WaitOutcome) (w : World)
    (h : WF w []) :
    timedwait_loop pevent env w ETIMEDOUT = .ok ({ ret := -1, w := w }, ETIMEDOUT) := by
  unfold timedwait_loop
  rw [pop_unsafe_nil w pevent h]
  simp

theorem timedwait_loop_nil_step (pevent : Bool) (o : WaitOutcome) (env : List WaitOutcome)
    (w : World) (pe : Int) (h : WF w []) (hpe : pe ≠ ETIMEDOUT) :
    timedwait_loop pevent (o :: env) w pe =
      match timedwait_loop pevent env (o.wake w) o.code with
      | .error s => .error s
      | .ok (r1, pe1) =>
        .ok ({ r1 with trace := Ev.cond_timedwait o.code :: r1.trace }, pe1) := by
  conv_lhs => unfold timedwait_loop
  rw [pop_unsafe_nil w pevent h]
  simp [hpe]

theorem wait_loop_pop_ok (pevent : Bool) (env : List WaitOutcome) (w : World)
    (r : Res) (h : event_queue_pop_unsafe w pevent = .ok r) (h0 : r.ret = 0) :
    wait_loop pevent env w = .ok r := by
  unfold wait_loop
  rw [h]
  simp [h0]

theorem pop_unsafe_frame (w : World) (pevent : Bool) (r : Res)
    (h : event_queue_pop_unsafe w pevent = .ok r) :
    r.w.eq.nr_await = w.eq.nr_await ∧ watchers r.w.eq = watchers w.eq ∧
      (∀ e ∈ r.trace, is_nt_watcher e = false) ∧
      (r.ret < 0 → r.w = w ∧ w.eq.head = none ∧ w.eq.tail = none ∧ r.trace = [] ∧
        r.out = none ∧ r.ret = -1) := by
  unfold event_queue_pop_unsafe at h
  split at h
  · split at h
    · cases h
      rename_i hh ht
      exact ⟨rfl, rfl, by simp, fun _ => ⟨rfl, hh, ht, rfl, rfl, rfl⟩⟩
    · cases h
  · split at h
    · cases h
    · split at h
      · cases h
      · split at h
        · cases h
        · cases h
          exact ⟨rfl, rfl, by simp [is_nt_watcher], fun c => by simp at c⟩

theorem call_nt_events (q : event_queue) (d : Int) :
    ∀ e ∈ event_queue_call_nt_watcher_unsafe q d,
      is_wait e = false ∧ is_ne_watcher e = false ∧ is_nt_watcher e = true := by
  intro e he
  unfold event_queue_call_nt_watcher_unsafe at he
  cases hq : q.nt_watcher_cb with
  | none => simp [hq] at he
  | some cb =>
    simp only [hq, List.mem_singleton] at he
    subst he
    exact ⟨rfl, rfl, rfl⟩

theorem call_ne_events (q : event_queue) (d : Int) :
    ∀ e ∈ event_queue_call_ne_watcher_unsafe q d,
      is_wait e = false ∧ is_nt_watcher e = false ∧ is_ne_watcher e = true := by
  intro e he
  unfold event_queue_call_ne_watcher_unsafe at he
  cases hq : q.ne_watcher_cb with
  | none => simp [hq] at he
  | some cb =>
    simp only [hq, List.mem_singleton] at he
    subst he
    exact ⟨rfl, rfl, rfl⟩

theorem filter_eq_nil_of (p : Ev → Bool) (l : List Ev) (h : ∀ e ∈ l, p e = false) :
    l.filter p = [] := by
  rw [List.filter_eq_nil_iff]
  intro e he
  simp [h e he]

theorem pop_unsafe_same_waiters (w : World) (pevent : Bool) (r : Res)
    (h : event_queue_pop_unsafe w pevent = .ok r) :
    same_waiters r.w w ∧ ∀ e ∈ r.trace, is_nt_watcher e = false := by
  obtain ⟨h1, h2, h3, _⟩ := pop_unsafe_frame w pevent r h
  simp only [watchers, Prod.mk.injEq] at h2
  exact ⟨⟨h1, h2.2.2.2, h2.2.2.1⟩, h3⟩

theorem wait_loop_frame (pevent : Bool) :
    ∀ (env : List WaitOutcome) (w : World) (r : Res),
      (∀ o ∈ env, ∀ u, same_waiters (o.wake u) u) →
      wait_loop pevent env w = .ok r →
        same_waiters r.w w ∧ ∀ e ∈ r.trace, is_nt_watcher e = false
  | [], w, r, _, h => by
    unfold wait_loop at h
    cases hp : event_queue_pop_unsafe w pevent with
    | error s => simp [hp] at h
    | ok r0 =>
      simp only [hp] at h
      by_cases hc : r0.ret < 0
      · rw [if_pos hc] at h
        cases h
      · rw [if_neg hc] at h
        simp only [Except.ok.injEq] at h
        subst h
        exact pop_unsafe_same_waiters w pevent r0 hp
  | o :: env, w, r, henv, h => by
    unfold wait_loop at h
    cases hp : event_queue_pop_unsafe w pevent with
    | error s => simp [hp] at h
    | ok r0 =>
      simp only [hp] at h
      obtain ⟨⟨a1, a2, a3⟩, a4⟩ := pop_unsafe_same_waiters w pevent r0 hp
      by_cases hc : r0.ret < 0
      · rw [if_pos hc] at h
        cases hl : wait_loop pevent env (o.wake r0.w) with
        | error s => simp [hl] at h
        | ok r1 =>
          simp only [hl, Except.ok.injEq] at h
          subst h
          obtain ⟨⟨b1, b2, b3⟩, b4⟩ := wait_loop_frame pevent env (o.wake r0.w) r1
            (fun o1 ho1 => henv o1 (by simp [ho1])) hl
          obtain ⟨c1, c2, c3⟩ := henv o (by simp) r0.w
          refine ⟨⟨by rw [b1, c1, a1], by rw [b2, c2, a2], by rw [b3, c3, a3]⟩, ?_⟩
          intro e he
          simp only [List.mem_append, List.mem_cons] at he
          rcases he with he | he | he
          · exact a4 e he
          · subst he; rfl
          · exact b4 e he
      · rw [if_neg hc] at h
        simp only [Except.ok.injEq] at h
        subst h
        exact ⟨⟨a1, a2, a3⟩, a4⟩

theorem timedwait_loop_frame (pevent : Bool) :
    ∀ (env : List WaitOutcome) (w : World) (pe : Int) (r : Res) (pe1 : Int),
      (∀ o ∈ env, ∀ u, same_waiters (o.wake u) u) →
      timedwait_loop pevent env w pe = .ok (r, pe1) →
        same_waiters r.w w ∧ ∀ e ∈ r.trace, is_nt_watcher e = false
  | [], w, pe, r, pe1, _, h => by
    unfold timedwait_loop at h
    cases hp : event_queue_pop_unsafe w pevent with
    | error s => simp [hp] at h
    | ok r0 =>
      simp only [hp] at h
      by_cases hc : r0.ret < 0 ∧ pe ≠ ETIMEDOUT
      · rw [if_pos hc] at h
        cases h
      · rw [if_neg hc] at h
        simp only [Except.ok.injEq, Prod.mk.injEq] at h
        obtain ⟨h1, _⟩ := h
        subst h1
        exact pop_unsafe_same_waiters w pevent r0 hp
  | o :: env, w, pe, r, pe1, henv, h => by
    unfold timedwait_loop at h
    cases hp : event_queue_pop_unsafe w pevent with
    | error s => simp [hp] at h
    | ok r0 =>
      simp only [hp] at h
      obtain ⟨⟨a1, a2, a3⟩, a4⟩ := pop_unsafe_same_waiters w pevent r0 hp
      by_cases hc : r0.ret < 0 ∧ pe ≠ ETIMEDOUT
      · rw [if_pos hc] at h
        cases hl : timedwait_loop pevent env (o.wake r0.w) o.code with
        | error s => simp [hl] at h
        | ok x =>
          obtain ⟨r1, pe2⟩ := x
          simp only [hl, Except.ok.injEq, Prod.mk.injEq] at h
          obtain ⟨h1, _⟩ := h
          subst h1
          obtain ⟨⟨b1, b2, b3⟩, b4⟩ := timedwait_loop_frame pevent env (o.wake r0.w) o.code
            r1 pe2 (fun o1 ho1 => henv o1 (by simp [ho1])) hl
          obtain ⟨c1, c2, c3⟩ := henv o (by simp) r0.w
          refine ⟨⟨by rw [b1, c1, a1], by rw [b2, c2, a2], by rw [b3, c3, a3]⟩, ?_⟩
          intro e he
          simp only [List.mem_append, List.mem_cons] at he
          rcases he with he | he | he
          · exact a4 e he
          · subst he; rfl
          · exact b4 e he
      · rw [if_neg hc] at h
        simp only [Except.ok.injEq, Prod.mk.injEq] at h
        obtain ⟨h1, _⟩ := h
        subst h1
        exact ⟨⟨a1, a2, a3⟩, a4⟩

theorem call_nt_eq (q q0 : event_queue) (nr dir : Int) (h1 : q.nr_await = nr)
    (h2 : q.nt_watcher_cb = q0.nt_watcher_cb)
    (h3 : q.nt_watcher_data = q0.nt_watcher_data) :
    event_queue_call_nt_watcher_unsafe q dir = nt_call q0 nr dir := by
  simp only [ event_queue_call_nt_watcher_unsafe, nt_call, h1, h2, h3]

theorem call_ne_eq (q q0 : event_queue) (nr dir : Int) (h1 : q.nr_events = nr)
    (h2 : q.ne_watcher_cb = q0.ne_watcher_cb)
    (h3 : q.ne_watcher_data = q0.ne_watcher_data) :
    event_queue_call_ne_watcher_unsafe q dir = ne_call q0 nr dir := by
  simp only [ event_queue_call_ne_watcher_unsafe, ne_call, h1, h2, h3]

theorem nt_call_events (q : event_queue) (nr dir : Int) :
    ∀ e ∈ nt_call q nr dir,
      is_wait e = false ∧ is_ne_watcher e = false ∧ is_nt_watcher e = true := by
  intro e he
  unfold nt_call at he
  cases hq : q.nt_watcher_cb with
  | none => simp [hq] at he
  | some cb =>
    simp only [hq, List.mem_singleton] at he
    subst he
    exact ⟨rfl, rfl, rfl⟩

theorem ne_call_events (q : event_queue) (nr dir : Int) :
    ∀ e ∈ ne_call q nr dir,
      is_wait e = false ∧ is_nt_watcher e = false ∧ is_ne_watcher e = true := by
  intro e he
  unfold ne_call at he
  cases hq : q.ne_watcher_cb with
  | none => simp [hq] at he
  | some cb =>
    simp only [hq, List.mem_singleton] at he
    subst he
    exact ⟨rfl, rfl, rfl⟩

theorem filter_eq_self_of (p : Ev → Bool) (l : List Ev) (h : ∀ e ∈ l, p e = true) :
    l.filter p = l := by
  rw [List.filter_eq_self]
  exact h

/-- Shape of the trace of a waiting call: the waiter watcher is called first and last, and
nowhere in between. -/
theorem waiter_trace (w : World) (mid t2 : List Ev)
    (hmid : ∀ e ∈ mid, is_nt_watcher e = false) (ht2 : ∀ e ∈ t2, is_nt_watcher e = false) :
    (nt_call w.eq (w.eq.nr_await + 1) 1 ++ mid ++ t2 ++
        nt_call w.eq w.eq.nr_await (-1)).filter is_nt_watcher =
      nt_call w.eq (w.eq.nr_await + 1) 1 ++ nt_call w.eq w.eq.nr_await (-1) := by
  simp only [List.filter_append]
  rw [filter_eq_nil_of is_nt_watcher mid hmid, filter_eq_nil_of is_nt_watcher t2 ht2,
    filter_eq_self_of is_nt_watcher _ (fun e he => (nt_call_events _ _ _ e he).2.2),
    filter_eq_self_of is_nt_watcher _ (fun e he => (nt_call_events _ _ _ e he).2.2)]
  simp

/-! ## The claims -/

/-- C1 (FIFO order): on a freshly initialised queue a `trywait` reports Empty (`-1`);
then `n` posts whose allocations succeed (with pairwise distinct addresses not in use)
all return `0`, the following `n` calls of `trywait` all return `0` and deliver the
posted payloads in posting order, and one more `trywait` returns `-1` again. -/
theorem C1_fifo_order (pool_new : Option Nat) (w : World) (posts : List (Nat × Nat))
    (hinit : (event_queue_init pool_new w).ret = 0)
    (hfresh : ∀ a ∈ posts.map Prod.fst, w.mem a = none)
    (hnd : (posts.map Prod.fst).Nodup) :
    ∃ w1 w2,
      event_queue_trywait (event_queue_init pool_new w).w true =
        .ok { ret := -1, w := (event_queue_init pool_new w).w } ∧
      post_all posts (event_queue_init pool_new w).w =
        .ok (List.replicate posts.length 0, w1) ∧
      trywait_all posts.length w1 =
        .ok (posts.map (fun p => ((0 : Int), some p.2)), w2) ∧
      event_queue_trywait w2 true = .ok { ret := -1, w := w2 } := by
  obtain ⟨h0, hm⟩ := init_wf pool_new w hinit
  obtain ⟨w1, h1, h2⟩ := post_all_wf posts _ [] h0 (by rw [hm]; exact hfresh) hnd
  obtain ⟨w2, h3, h4⟩ := trywait_all_wf posts w1 (by simpa using h2)
  exact ⟨w1, w2, trywait_nil _ true h0, h1, h3, trywait_nil _ true h4⟩

/-- Witness for C1: Empty; post(10); post(20); pops deliver 10 then 20; Empty. -/
theorem C1_fifo_order_witness :
    ∃ w1 w2,
      event_queue_trywait (event_queue_init (some 100) w_raw).w true =
        .ok { ret := -1, w := (event_queue_init (some 100) w_raw).w } ∧
      post_all [(1, 10), (2, 20)] (event_queue_init (some 100) w_raw).w =
        .ok ([0, 0], w1) ∧
      trywait_all 2 w1 = .ok ([(0, some 10), (0, some 20)], w2) ∧
      event_queue_trywait w2 true = .ok { ret := -1, w := w2 } :=
  C1_fifo_order (some 100) w_raw [(1, 10), (2, 20)] (by decide) (by decide) (by decide)


theorem inv_await (w : World) (k : Int) (h : Inv w) :
    Inv { w with eq := { w.eq with nr_await := k } } := by
  obtain ⟨nodes, hw⟩ := h
  exact ⟨nodes, wf_congr w _ nodes hw rfl rfl rfl rfl⟩

theorem pop_unsafe_inv (w : World) (pevent : Bool) (h : Inv w) :
    ∃ r, event_queue_pop_unsafe w pevent = .ok r ∧ Inv r.w ∧ (r.ret = 0 ∨ r.ret = -1) := by
  obtain ⟨nodes, hw⟩ := h
  cases nodes with
  | nil => exact ⟨_, pop_unsafe_nil w pevent hw, ⟨[], hw⟩, Or.inr rfl⟩
  | cons n rest =>
    obtain ⟨w1, h1, h2, _⟩ := pop_unsafe_cons w n rest pevent hw
    exact ⟨_, h1, ⟨rest, h2⟩, Or.inl rfl⟩

theorem push_unsafe_inv (alloc : Option Nat) (w : World) (x : Nat) (h : Inv w)
    (hf : ∀ a, alloc = some a → w.mem a = none) :
    ∃ r, event_queue_push_unsafe alloc w x = .ok r ∧ Inv r.w := by
  obtain ⟨nodes, hw⟩ := h
  cases alloc with
  | none => exact ⟨_, rfl, ⟨nodes, hw⟩⟩
  | some e =>
    obtain ⟨w1, h1, h2, _⟩ := push_unsafe_wf w nodes e x hw (hf e rfl)
    exact ⟨_, h1, ⟨_, h2⟩⟩

theorem wait_loop_inv (pevent : Bool) :
    ∀ (env : List WaitOutcome) (w : World), Inv w →
      (∀ o ∈ env, ∀ v, Inv v → Inv (o.wake v)) →
      (∃ r, wait_loop pevent env w = .ok r ∧ Inv r.w) ∨
        wait_loop pevent env w = .error .still_waiting
  | [], w, h, _ => by
    obtain ⟨r, h1, h2, h3⟩ := pop_unsafe_inv w pevent h
    unfold wait_loop
    rw [h1]
    rcases h3 with h3 | h3
    · left; exact ⟨r, by simp [h3], h2⟩
    · right; simp [h3]
  | o :: env, w, h, henv => by
    obtain ⟨r, h1, h2, h3⟩ := pop_unsafe_inv w pevent h
    unfold wait_loop
    rw [h1]
    rcases h3 with h3 | h3
    · left; exact ⟨r, by simp [h3], h2⟩
    · have ih := wait_loop_inv pevent env (o.wake r.w) (henv o (by simp) r.w h2)
        (fun o1 ho1 => henv o1 (by simp [ho1]))
      rcases ih with ⟨r1, h4, h5⟩ | h4
      · left
        exact ⟨{ r1 with trace := r.trace ++ Ev.cond_wait :: r1.trace },
          by simp [h3, h4], h5⟩
      · right; simp [h3, h4]

theorem timedwait_loop_inv (pevent : Bool) :
    ∀ (env : List WaitOutcome) (w : World) (pe : Int), Inv w →
      (∀ o ∈ env, ∀ v, Inv v → Inv (o.wake v)) →
      (∃ r pe1, timedwait_loop pevent env w pe = .ok (r, pe1) ∧ Inv r.w) ∨
        timedwait_loop pevent env w pe = .error .still_waiting
  | [], w, pe, h, _ => by
    obtain ⟨r, h1, h2, h3⟩ := pop_unsafe_inv w pevent h
    unfold timedwait_loop
    rw [h1]
    by_cases hc : r.ret < 0 ∧ pe ≠ ETIMEDOUT
    · right; simp [hc]
    · left; exact ⟨r, pe, by simp only [hc, if_false], h2⟩
  | o :: env, w, pe, h, henv => by
    obtain ⟨r, h1, h2, h3⟩ := pop_unsafe_inv w pevent h
    unfold timedwait_loop
    rw [h1]
    by_cases hc : r.ret < 0 ∧ pe ≠ ETIMEDOUT
    · have ih := timedwait_loop_inv pevent env (o.wake r.w) o.code
        (henv o (by simp) r.w h2) (fun o1 ho1 => henv o1 (by simp [ho1]))
      rcases ih with ⟨r1, pe1, h4, h5⟩ | h4
      · left
        exact ⟨{ r1 with trace := r.trace ++ Ev.cond_timedwait o.code :: r1.trace }, pe1,
          by simp [hc, h4], h5⟩
      · right; simp [hc, h4]
    · left; exact ⟨r, pe, by simp only [hc, if_false], h2⟩

theorem inv_fields (w : World) (h : Inv w) :
    (w.eq.head = none ↔ w.eq.tail = none) ∧ (w.eq.tail = none ↔ w.eq.nr_events = 0) ∧
      0 ≤ w.eq.nr_events := by
  obtain ⟨nodes, hw⟩ := h
  have h1 := hw.chain
  have h2 := hw.tail
  have h3 := hw.count
  cases nodes with
  | nil =>
    have h1a : w.eq.head = none := h1
    simp at h2 h3
    simp [h1a, h2, h3]
  | cons n rest =>
    have h1a : w.eq.head = some n.1 := h1.1
    have h2a : w.eq.tail ≠ none := by
      rw [h2]
      simp [List.getLast?_eq_none_iff]
    have h3a : w.eq.nr_events ≠ 0 := by
      rw [h3]
      simp only [List.length_cons]
      omega
    refine ⟨by simp [h1a, h2a], by simp [h2a, h3a], by rw [h3]; omega⟩

/-- C2 (count invariant): `Inv` (the nodes reachable from `head` form a finite chain,
`tail` is its last node, `nr_events` is its length) holds after a successful
`event_queue_init`; from a state satisfying it, `event_queue_push_unsafe` (allocation
failed, or succeeded with an address not in use), `event_queue_pop_unsafe`,
`event_queue_post` and `event_queue_trywait` return without a failed assertion in a state
satisfying it again; `event_queue_wait` and `event_queue_timedwait` either return in such
a state or are still waiting when the schedule ends (never a failed assertion), provided
the other threads preserve it during the waits; and every state satisfying it has
`head` absent iff `tail` absent iff `nr_events = 0`, with `nr_events` non-negative. -/
theorem C2_count_invariant (pool_new : Option Nat) (w0 w : World) (alloc : Option Nat)
    (x : Nat) (pevent : Bool) (env : List WaitOutcome)
    (hinv : Inv w) (hfresh : ∀ a, alloc = some a → w.mem a = none)
    (henv : ∀ o ∈ env, ∀ v, Inv v → Inv (o.wake v)) :
    ((event_queue_init pool_new w0).ret = 0 → Inv (event_queue_init pool_new w0).w) ∧
    (∃ r, event_queue_push_unsafe alloc w x = .ok r ∧ Inv r.w) ∧
    (∃ r, event_queue_pop_unsafe w pevent = .ok r ∧ Inv r.w) ∧
    (∃ r, event_queue_post alloc w x = .ok r ∧ Inv r.w) ∧
    (∃ r, event_queue_trywait w pevent = .ok r ∧ Inv r.w) ∧
    ((∃ r, event_queue_wait env w pevent = .ok r ∧ Inv r.w) ∨
      event_queue_wait env w pevent = .error .still_waiting) ∧
    ((∃ r, event_queue_timedwait env w pevent = .ok r ∧ Inv r.w) ∨
      event_queue_timedwait env w pevent = .error .still_waiting) ∧
    (∀ v, Inv v →
      (v.eq.head = none ↔ v.eq.tail = none) ∧ (v.eq.tail = none ↔ v.eq.nr_events = 0) ∧
        0 ≤ v.eq.nr_events) := by
  obtain ⟨rp, hp1, hp2⟩ := push_unsafe_inv alloc w x hinv hfresh
  obtain ⟨rq, hq1, hq2, hq3⟩ := pop_unsafe_inv w pevent hinv
  refine ⟨fun h => ⟨[], (init_wf pool_new w0 h).1⟩, ⟨rp, hp1, hp2⟩, ⟨rq, hq1, hq2⟩, ?_, ?_, ?_,
    ?_, inv_fields⟩
  · unfold event_queue_post
    rw [hp1]
    by_cases hc : rp.ret = 0
    · simp only [hc, if_true]
      exact ⟨_, rfl, hp2⟩
    · simp only [hc, if_false]
      exact ⟨_, rfl, hp2⟩
  · unfold event_queue_trywait
    rw [hq1]
    by_cases hc : ¬ (rq.ret < 0)
    · simp only [hc, not_false_eq_true, if_true]
      exact ⟨_, rfl, hq2⟩
    · simp only [hc, if_false]
      exact ⟨_, rfl, hq2⟩
  · unfold event_queue_wait
    rcases wait_loop_inv pevent env _ (inv_await w (w.eq.nr_await + 1) hinv) henv with
      ⟨r, h1, h2⟩ | h1
    · left
      simp only [h1]
      exact ⟨_, rfl, inv_await r.w _ h2⟩
    · right
      simp only [h1]
  · unfold event_queue_timedwait
    rcases timedwait_loop_inv pevent env _ 0 (inv_await w (w.eq.nr_await + 1) hinv) henv with
      ⟨r, pe, h1, h2⟩ | h1
    · left
      simp only [h1]
      exact ⟨_, rfl, inv_await r.w _ h2⟩
    · right
      simp only [h1]

/-- Witness for C2: the two-element queue `w_two`, an allocation at the free address `3`,
and an empty schedule of wake-ups. -/
theorem C2_count_invariant_witness :
    ((event_queue_init (some 100) w_raw).ret = 0 →
      Inv (event_queue_init (some 100) w_raw).w) ∧
    (∃ r, event_queue_push_unsafe (some 3) w_two 30 = .ok r ∧ Inv r.w) ∧
    (∃ r, event_queue_pop_unsafe w_two true = .ok r ∧ Inv r.w) ∧
    (∃ r, event_queue_post (some 3) w_two 30 = .ok r ∧ Inv r.w) ∧
    (∃ r, event_queue_trywait w_two true = .ok r ∧ Inv r.w) ∧
    ((∃ r, event_queue_wait [] w_two true = .ok r ∧ Inv r.w) ∨
      event_queue_wait [] w_two true = .error .still_waiting) ∧
    ((∃ r, event_queue_timedwait [] w_two true = .ok r ∧ Inv r.w) ∨
      event_queue_timedwait [] w_two true = .error .still_waiting) ∧
    (∀ v, Inv v →
      (v.eq.head = none ↔ v.eq.tail = none) ∧ (v.eq.tail = none ↔ v.eq.nr_events = 0) ∧
        0 ≤ v.eq.nr_events) :=
  C2_count_invariant (some 100) w_raw w_two (some 3) 30 true []
    ⟨[(1, 10), (2, 20)], by decide⟩ (by intro a h; cases h; rfl) (by simp)

/-- C3 (a failed post is atomic): when the allocation fails, `event_queue_post` returns
`-1`, leaves the whole state as it was, and makes no outside call (no condition signal,
no watcher call); a later post therefore behaves as from the state before the failed
post. -/
theorem C3_failed_post_atomic (w : World) (x : Nat) :
    event_queue_post none w x =
        .ok { ret := -1, w := w, trace := [], out := none, errno := none } ∧
    ∀ r, event_queue_post none w x = .ok r →
      ∀ (alloc : Option Nat) (y : Nat),
        event_queue_post alloc r.w y = event_queue_post alloc w y := by
  have h : event_queue_post none w x =
      .ok { ret := -1, w := w, trace := [], out := none, errno := none } := by
    simp [event_queue_post, event_queue_push_unsafe]
  refine ⟨h, ?_⟩
  intro r hr alloc y
  rw [h] at hr
  cases hr
  rfl

/-- C4 (effect of a successful post): on a well-formed queue with nodes `nodes`, a post
whose allocation succeeds (at an address not in use) returns `0`; the queue then holds
`nodes` followed by the new payload, `nr_events` is one larger, `nr_await` and both
watcher registrations are unchanged; the outside calls are exactly one condition signal
followed, when an event watcher is registered, by one call of it with its context, the
new count and direction `+1`. -/
theorem C4_successful_post (w : World) (nodes : List (Nat × Nat)) (e x : Nat)
    (h : WF w nodes) (hf : w.mem e = none) :
    ∃ w1, event_queue_post (some e) w x =
        .ok { ret := 0, w := w1,
              trace := Ev.cond_signal ::
                (match w.eq.ne_watcher_cb with
                 | some cb => [Ev.ne_watcher cb w.eq.ne_watcher_data (w.eq.nr_events + 1) 1]
                 | none => []),
              out := none, errno := none } ∧
      WF w1 (nodes ++ [(e, x)]) ∧
      (nodes ++ [(e, x)]).map Prod.snd = nodes.map Prod.snd ++ [x] ∧
      w1.eq.nr_events = w.eq.nr_events + 1 ∧
      w1.eq.nr_await = w.eq.nr_await ∧ watchers w1.eq = watchers w.eq := by
  obtain ⟨w1, h1, h2, h3, h4, h5, _⟩ := post_wf w nodes e x h hf
  refine ⟨w1, ?_, h2, by simp, h3, h4, h5⟩
  rw [h1]
  simp only [watchers, Prod.mk.injEq] at h5
  simp only [ event_queue_call_ne_watcher_unsafe, h5.1, h5.2.1, h3]

/-- Witness for C4: posting payload `30` to the queue `w_two` with a node at address
`3`. -/
theorem C4_successful_post_witness :
    ∃ w1, event_queue_post (some 3) w_two 30 =
        .ok { ret := 0, w := w1,
              trace := Ev.cond_signal ::
                (match w_two.eq.ne_watcher_cb with
                 | some cb =>
                   [Ev.ne_watcher cb w_two.eq.ne_watcher_data (w_two.eq.nr_events + 1) 1]
                 | none => []),
              out := none, errno := none } ∧
      WF w1 ([(1, 10), (2, 20)] ++ [(3, 30)]) ∧
      ([(1, 10), (2, 20)] ++ [(3, 30)]).map Prod.snd =
        [(1, 10), (2, 20)].map Prod.snd ++ [30] ∧
      w1.eq.nr_events = w_two.eq.nr_events + 1 ∧
      w1.eq.nr_await = w_two.eq.nr_await ∧ watchers w1.eq = watchers w_two.eq :=
  C4_successful_post w_two [(1, 10), (2, 20)] 3 30 (by decide) (by decide)

/-- C5 (timeout correctness of `event_queue_timedwait`): (a) on a non-empty well-formed
queue it returns `0` and delivers the head payload without any condition wait, whatever
the schedule of wait outcomes; (b) on an empty queue, when the first condition wait
returns `ETIMEDOUT` and the store (`head`, `tail`, `nr_events`) is as before on
reacquiring the lock, it returns `-1` with `errno` set to `ETIMEDOUT` after exactly one
condition wait, without a call of the event watcher, storing nothing through the
out-pointer and leaving `head`, `tail` and `nr_events` unchanged. -/
theorem C5_timedwait_timeout (w v : World) (n : Nat × Nat) (rest : List (Nat × Nat))
    (o : WaitOutcome) (env env1 : List WaitOutcome) (pevent : Bool)
    (hw : WF w (n :: rest)) (hv : WF v [])
    (ho : o.code = ETIMEDOUT)
    (hhead : (o.wake { v with eq := { v.eq with nr_await := v.eq.nr_await + 1 } }).eq.head
      = v.eq.head)
    (htail : (o.wake { v with eq := { v.eq with nr_await := v.eq.nr_await + 1 } }).eq.tail
      = v.eq.tail)
    (hcount :
      (o.wake { v with eq := { v.eq with nr_await := v.eq.nr_await + 1 } }).eq.nr_events
      = v.eq.nr_events) :
    (∃ r, event_queue_timedwait env w pevent = .ok r ∧ r.ret = 0 ∧
      r.out = (if pevent then some n.2 else none) ∧ r.errno = none ∧
      r.trace.filter is_wait = [] ∧ WF r.w rest) ∧
    (∃ r, event_queue_timedwait (o :: env1) v pevent = .ok r ∧ r.ret = -1 ∧
      r.errno = some ETIMEDOUT ∧ r.out = none ∧
      r.trace.filter is_wait = [Ev.cond_timedwait ETIMEDOUT] ∧
      r.trace.filter is_ne_watcher = [] ∧
      r.w.eq.head = v.eq.head ∧ r.w.eq.tail = v.eq.tail ∧
      r.w.eq.nr_events = v.eq.nr_events) := by
  constructor
  · have hw1 : WF { w with eq := { w.eq with nr_await := w.eq.nr_await + 1 } } (n :: rest) :=
      wf_congr w _ _ hw rfl rfl rfl rfl
    obtain ⟨w1, h1, h2, _⟩ := pop_unsafe_cons _ n rest pevent hw1
    have hl := timedwait_loop_pop_ok pevent env _ 0 _ h1 rfl
    refine ⟨_, by unfold event_queue_timedwait; simp only [hl]; rfl, rfl, rfl, rfl, ?_,
      wf_congr w1 _ _ h2 rfl rfl rfl rfl⟩
    apply filter_eq_nil_of
    intro e he
    simp only [lt_self_iff_false, not_false_eq_true, if_true, List.append_assoc,
      List.mem_append, List.mem_singleton] at he
    rcases he with he | he | he | he
    · exact (call_nt_events _ _ e he).1
    · subst he; rfl
    · exact (call_ne_events _ _ e he).1
    · exact (call_nt_events _ _ e he).1
  · obtain ⟨hvh, hvt, hvc⟩ := wf_nil_fields v hv
    have hq : WF (o.wake { v with eq := { v.eq with nr_await := v.eq.nr_await + 1 } }) [] :=
      ⟨by rw [hhead, hvh]; rfl, by rw [htail, hvt]; rfl, by rw [hcount, hvc]; rfl⟩
    have hv1 : WF { v with eq := { v.eq with nr_await := v.eq.nr_await + 1 } } [] :=
      wf_congr v _ _ hv rfl rfl rfl rfl
    have hl := timedwait_loop_nil_step pevent o env1 _ 0 hv1 (by decide)
    rw [ho, timedwait_loop_nil_timeout pevent env1 _ hq] at hl
    refine ⟨_, by unfold event_queue_timedwait; simp only [hl]; rfl, rfl, ?_, rfl, ?_, ?_,
      hhead, htail, hcount⟩
    · simp
    · simp only [List.filter_append]
      rw [filter_eq_nil_of is_wait _ (fun e he => (call_nt_events _ _ e he).1),
        filter_eq_nil_of is_wait _ (fun e he => (call_nt_events _ _ e he).1)]
      simp [is_wait]
    · simp only [List.filter_append]
      rw [filter_eq_nil_of is_ne_watcher _ (fun e he => (call_nt_events _ _ e he).2.1),
        filter_eq_nil_of is_ne_watcher _ (fun e he => (call_nt_events _ _ e he).2.1)]
      simp [is_ne_watcher]

/-- Witness for C5: `w_two` (head payload `10`) and the empty queue `w_empty` with a wait
that times out at once. -/
theorem C5_timedwait_timeout_witness :
    (∃ r, event_queue_timedwait [] w_two true = .ok r ∧ r.ret = 0 ∧
      r.out = (if true then some 10 else none) ∧ r.errno = none ∧
      r.trace.filter is_wait = [] ∧ WF r.w [(2, 20)]) ∧
    (∃ r, event_queue_timedwait (o_timeout :: []) w_empty true = .ok r ∧ r.ret = -1 ∧
      r.errno = some ETIMEDOUT ∧ r.out = none ∧
      r.trace.filter is_wait = [Ev.cond_timedwait ETIMEDOUT] ∧
      r.trace.filter is_ne_watcher = [] ∧
      r.w.eq.head = w_empty.eq.head ∧ r.w.eq.tail = w_empty.eq.tail ∧
      r.w.eq.nr_events = w_empty.eq.nr_events) :=
  C5_timedwait_timeout w_two w_empty (1, 10) [(2, 20)] o_timeout [] [] true
    (by decide) (by decide) rfl rfl rfl rfl

/-- C7 (balanced waiter count): for every state and every schedule of wait outcomes
during which the other threads leave `nr_await` and the waiter-watcher registration
alone, a returning `event_queue_wait` or `event_queue_timedwait` (whatever it returns)
leaves `nr_await` as on entry; its trace starts with the waiter-watcher call
`(n+1, +1)` and ends with the waiter-watcher call `(n, -1)` (when one is registered),
where `n` is `nr_await` on entry, and has no other waiter-watcher call. -/
theorem C7_balanced_waiter_count (env : List WaitOutcome) (w : World) (pevent : Bool)
    (r : Res)
    (henv : ∀ o ∈ env, ∀ u, same_waiters (o.wake u) u)
    (hret : event_queue_wait env w pevent = .ok r ∨
      event_queue_timedwait env w pevent = .ok r) :
    r.w.eq.nr_await = w.eq.nr_await ∧
    (∃ mid, (∀ e ∈ mid, is_nt_watcher e = false) ∧
      r.trace = nt_call w.eq (w.eq.nr_await + 1) 1 ++ mid ++
        nt_call w.eq w.eq.nr_await (-1)) ∧
    r.trace.filter is_nt_watcher =
      nt_call w.eq (w.eq.nr_await + 1) 1 ++ nt_call w.eq w.eq.nr_await (-1) := by
  rcases hret with h | h
  · unfold event_queue_wait at h
    simp only at h
    cases hl : wait_loop pevent env
        { w with eq := { w.eq with nr_await := w.eq.nr_await + 1 } } with
    | error s => simp [hl] at h
    | ok r1 =>
      simp only [hl, Except.ok.injEq] at h
      obtain ⟨⟨a1, a2, a3⟩, a4⟩ := wait_loop_frame pevent env _ r1 henv hl
      simp only at a1 a2 a3
      have e1 := call_nt_eq { w.eq with nr_await := w.eq.nr_await + 1 } w.eq
        (w.eq.nr_await + 1) 1 rfl rfl rfl
      have e3 := call_nt_eq { r1.w.eq with nr_await := r1.w.eq.nr_await - 1 } w.eq
        w.eq.nr_await (-1) (by simp [a1]) a2 a3
      have hne : ∀ e ∈ event_queue_call_ne_watcher_unsafe r1.w.eq (-1),
          is_nt_watcher e = false := fun e he => (call_ne_events _ _ e he).2.1
      subst h
      simp only [e1, e3]
      refine ⟨by simp [a1], ⟨r1.trace ++ event_queue_call_ne_watcher_unsafe r1.w.eq (-1),
        ?_, by simp⟩, waiter_trace w _ _ a4 hne⟩
      intro e he
      rcases List.mem_append.1 he with he | he
      · exact a4 e he
      · exact hne e he
  · unfold event_queue_timedwait at h
    simp only at h
    cases hl : timedwait_loop pevent env
        { w with eq := { w.eq with nr_await := w.eq.nr_await + 1 } } 0 with
    | error s => simp [hl] at h
    | ok x =>
      obtain ⟨r1, pe1⟩ := x
      simp only [hl, Except.ok.injEq] at h
      obtain ⟨⟨a1, a2, a3⟩, a4⟩ := timedwait_loop_frame pevent env _ 0 r1 pe1 henv hl
      simp only at a1 a2 a3
      have e1 := call_nt_eq { w.eq with nr_await := w.eq.nr_await + 1 } w.eq
        (w.eq.nr_await + 1) 1 rfl rfl rfl
      have e3 := call_nt_eq { r1.w.eq with nr_await := r1.w.eq.nr_await - 1 } w.eq
        w.eq.nr_await (-1) (by simp [a1]) a2 a3
      have hne : ∀ e ∈ (if ¬ (r1.ret < 0) then
            event_queue_call_ne_watcher_unsafe r1.w.eq (-1) else []),
          is_nt_watcher e = false := by
        intro e he
        split at he
        · exact (call_ne_events _ _ e he).2.1
        · simp at he
      subst h
      simp only [e1, e3]
      refine ⟨by simp [a1], ⟨r1.trace ++ (if ¬ (r1.ret < 0) then
            event_queue_call_ne_watcher_unsafe r1.w.eq (-1) else []),
        ?_, by simp⟩, waiter_trace w _ _ a4 hne⟩
      intro e he
      rcases List.mem_append.1 he with he | he
      · exact a4 e he
      · exact hne e he

/-- Witness for C7: `event_queue_timedwait` entered on the empty queue `w_empty` (one
waiter registered, waiter watcher `80` with context `8`); the wait times out. -/
theorem C7_balanced_waiter_count_witness :
    event_queue_timedwait [o_timeout] w_empty true =
      .ok { ret := -1, w := w_empty,
            trace := [Ev.nt_watcher 80 8 2 1, Ev.cond_timedwait ETIMEDOUT,
                      Ev.nt_watcher 80 8 1 (-1)],
            out := none, errno := some ETIMEDOUT } ∧
    w_empty.eq.nr_await = w_empty.eq.nr_await ∧
    (∃ mid, (∀ e ∈ mid, is_nt_watcher e = false) ∧
      [Ev.nt_watcher 80 8 2 1, Ev.cond_timedwait ETIMEDOUT, Ev.nt_watcher 80 8 1 (-1)] =
        nt_call w_empty.eq (w_empty.eq.nr_await + 1) 1 ++ mid ++
          nt_call w_empty.eq w_empty.eq.nr_await (-1)) ∧
    [Ev.nt_watcher 80 8 2 1, Ev.cond_timedwait ETIMEDOUT,
        Ev.nt_watcher 80 8 1 (-1)].filter is_nt_watcher =
      nt_call w_empty.eq (w_empty.eq.nr_await + 1) 1 ++
        nt_call w_empty.eq w_empty.eq.nr_await (-1) :=
  ⟨rfl,
    C7_balanced_waiter_count [o_timeout] w_empty true
      { ret := -1, w := w_empty,
        trace := [Ev.nt_watcher 80 8 2 1, Ev.cond_timedwait ETIMEDOUT,
                  Ev.nt_watcher 80 8 1 (-1)],
        out := none, errno := some ETIMEDOUT }
      (by
        intro o ho u
        simp only [List.mem_singleton] at ho
        subst ho
        exact ⟨rfl, rfl, rfl⟩)
      (Or.inr rfl)⟩

/-- C8 (`event_queue_wait` on a non-empty queue): on a well-formed queue with head node
`n`, count `c` and waiter count `k`, `event_queue_wait` returns `0` whatever the schedule,
stores the head payload through a non-`NULL` out-pointer, and makes exactly these outside
calls, in this order: waiter watcher `(k+1, +1)`, release of the head node, event watcher
`(c-1, -1)`, waiter watcher `(k, -1)` (no condition wait); afterwards the queue holds the
remaining nodes, `nr_events = c-1` and `nr_await = k`.  Every value returned by
`event_queue_wait` is `0`. -/
theorem C8_wait_nonempty (w : World) (n : Nat × Nat) (rest : List (Nat × Nat))
    (env : List WaitOutcome) (pevent : Bool) (h : WF w (n :: rest)) :
    (∃ w2, event_queue_wait env w pevent =
        .ok { ret := 0, w := w2,
              trace := nt_call w.eq (w.eq.nr_await + 1) 1 ++ [Ev.eqent_free n.1] ++
                ne_call w.eq (w.eq.nr_events - 1) (-1) ++ nt_call w.eq w.eq.nr_await (-1),
              out := if pevent then some n.2 else none, errno := none } ∧
      WF w2 rest ∧ w2.eq.nr_events = w.eq.nr_events - 1 ∧
      w2.eq.nr_await = w.eq.nr_await ∧ watchers w2.eq = watchers w.eq) ∧
    (∀ (env0 : List WaitOutcome) (u : World) (pev : Bool) (r : Res),
      event_queue_wait env0 u pev = .ok r → r.ret = 0) := by
  constructor
  · have hw1 : WF { w with eq := { w.eq with nr_await := w.eq.nr_await + 1 } } (n :: rest) :=
      wf_congr w _ _ h rfl rfl rfl rfl
    obtain ⟨w1, h1, h2, h3, h4, h5, _⟩ := pop_unsafe_cons _ n rest pevent hw1
    have hl := wait_loop_pop_ok pevent env _ _ h1 rfl
    simp only at h3 h4 h5
    simp only [watchers, Prod.mk.injEq] at h5
    have e1 := call_nt_eq { w.eq with nr_await := w.eq.nr_await + 1 } w.eq
      (w.eq.nr_await + 1) 1 rfl rfl rfl
    have e2 := call_ne_eq w1.eq w.eq (w.eq.nr_events - 1) (-1) h3 h5.2.1 h5.1
    have e3 := call_nt_eq { w1.eq with nr_await := w1.eq.nr_await - 1 } w.eq
      w.eq.nr_await (-1) (by simp [h4]) h5.2.2.2 h5.2.2.1
    refine ⟨{ w1 with eq := { w1.eq with nr_await := w1.eq.nr_await - 1 } }, ?_,
      wf_congr w1 _ _ h2 rfl rfl rfl rfl, h3, by simp [h4], ?_⟩
    · unfold event_queue_wait
      simp only [hl, e1, e2, e3]
    · simp only [watchers, h5]
  · intro env0 u pev r hr
    unfold event_queue_wait at hr
    simp only at hr
    cases hl : wait_loop pev env0
        { u with eq := { u.eq with nr_await := u.eq.nr_await + 1 } } with
    | error s => simp [hl] at hr
    | ok r1 =>
      simp only [hl, Except.ok.injEq] at hr
      subst hr
      rfl

/-- Witness for C8: `event_queue_wait` on `w_two` (head payload `10`, count `2`, one
waiter). -/
theorem C8_wait_nonempty_witness :
    (∃ w2, event_queue_wait [] w_two true =
        .ok { ret := 0, w := w2,
              trace := nt_call w_two.eq (w_two.eq.nr_await + 1) 1 ++ [Ev.eqent_free 1] ++
                ne_call w_two.eq (w_two.eq.nr_events - 1) (-1) ++
                nt_call w_two.eq w_two.eq.nr_await (-1),
              out := if true then some 10 else none, errno := none } ∧
      WF w2 [(2, 20)] ∧ w2.eq.nr_events = w_two.eq.nr_events - 1 ∧
      w2.eq.nr_await = w_two.eq.nr_await ∧ watchers w2.eq = watchers w_two.eq) ∧
    (∀ (env0 : List WaitOutcome) (u : World) (pev : Bool) (r : Res),
      event_queue_wait env0 u pev = .ok r → r.ret = 0) :=
  C8_wait_nonempty w_two (1, 10) [(2, 20)] [] true (by decide)

/-- C9 (non-blocking pop on an empty queue): on an empty well-formed queue
`event_queue_trywait` returns `-1`, leaves the whole state as it was, stores nothing
through the out-pointer, and makes no outside call (no condition wait, no watcher
call). -/
theorem C9_trywait_empty (w : World) (pevent : Bool) (h : WF w []) :
    event_queue_trywait w pevent =
      .ok { ret := -1, w := w, trace := [], out := none, errno := none } :=
  trywait_nil w pevent h

/-- Witness for C9: `event_queue_trywait` on the empty queue `w_empty`. -/
theorem C9_trywait_empty_witness :
    event_queue_trywait w_empty true =
      .ok { ret := -1, w := w_empty, trace := [], out := none, errno := none } :=
  C9_trywait_empty w_empty true (by decide)

/-- C10 (`event_queue_trywait` never touches the waiter count): on a well-formed queue
`event_queue_trywait` returns `0` when the queue is non-empty and `-1` when it is empty;
`nr_await` is unchanged and the waiter watcher is not called; the event watcher (if
registered) is called once, with the decremented count and direction `-1`, when the
return value is `0`, and not at all otherwise.  On any state whatsoever, a returning
`event_queue_trywait` leaves `nr_await` unchanged and does not call the waiter
watcher. -/
theorem C10_trywait_no_waiter (w : World) (nodes : List (Nat × Nat)) (pevent : Bool)
    (h : WF w nodes) :
    (∃ r, event_queue_trywait w pevent = .ok r ∧
      (r.ret = 0 ∨ r.ret = -1) ∧ (r.ret = 0 ↔ nodes ≠ []) ∧
      r.w.eq.nr_await = w.eq.nr_await ∧
      r.trace.filter is_nt_watcher = [] ∧
      r.trace.filter is_ne_watcher =
        (if r.ret = 0 then ne_call w.eq (w.eq.nr_events - 1) (-1) else [])) ∧
    (∀ (u : World) (pev : Bool) (r : Res), event_queue_trywait u pev = .ok r →
      r.w.eq.nr_await = u.eq.nr_await ∧ r.trace.filter is_nt_watcher = []) := by
  constructor
  · cases nodes with
    | nil =>
      refine ⟨_, trywait_nil w pevent h, Or.inr rfl, ?_, rfl, rfl, ?_⟩
      · simp
      · simp
    | cons n rest =>
      obtain ⟨w1, h1, _, h3, h4, h5, _⟩ := trywait_cons w n rest pevent h
      simp only [watchers, Prod.mk.injEq] at h5
      have e2 := call_ne_eq w1.eq w.eq (w.eq.nr_events - 1) (-1) h3 h5.2.1 h5.1
      refine ⟨_, h1, Or.inl rfl, by simp, h4, ?_, ?_⟩
      · apply filter_eq_nil_of
        intro e he
        simp only [List.mem_cons] at he
        rcases he with he | he
        · subst he; rfl
        · exact (call_ne_events _ _ e he).2.1
      · simp only [e2, if_true, List.filter_cons, is_ne_watcher]
        exact filter_eq_self_of _ _ (fun e he => (ne_call_events _ _ _ e he).2.2)
  · intro u pev r hr
    unfold event_queue_trywait at hr
    cases hp : event_queue_pop_unsafe u pev with
    | error s => simp [hp] at hr
    | ok r0 =>
      simp only [hp] at hr
      obtain ⟨⟨a1, _, _⟩, a4⟩ := pop_unsafe_same_waiters u pev r0 hp
      by_cases hc : ¬ (r0.ret < 0)
      · rw [if_pos hc] at hr
        simp only [Except.ok.injEq] at hr
        subst hr
        refine ⟨a1, filter_eq_nil_of _ _ ?_⟩
        intro e he
        rcases List.mem_append.1 he with he | he
        · exact a4 e he
        · exact (call_ne_events _ _ e he).2.1
      · rw [if_neg hc] at hr
        simp only [Except.ok.injEq] at hr
        subst hr
        exact ⟨a1, filter_eq_nil_of _ _ a4⟩

/-- Witness for C10: `event_queue_trywait` on `w_two`. -/
theorem C10_trywait_no_waiter_witness :
    (∃ r, event_queue_trywait w_two true = .ok r ∧
      (r.ret = 0 ∨ r.ret = -1) ∧ (r.ret = 0 ↔ [((1 : Nat), (10 : Nat)), (2, 20)] ≠ []) ∧
      r.w.eq.nr_await = w_two.eq.nr_await ∧
      r.trace.filter is_nt_watcher = [] ∧
      r.trace.filter is_ne_watcher =
        (if r.ret = 0 then ne_call w_two.eq (w_two.eq.nr_events - 1) (-1) else [])) ∧
    (∀ (u : World) (pev : Bool) (r : Res), event_queue_trywait u pev = .ok r →
      r.w.eq.nr_await = u.eq.nr_await ∧ r.trace.filter is_nt_watcher = []) :=
  C10_trywait_no_waiter w_two [(1, 10), (2, 20)] true (by decide)

/-! ## Frame facts on arbitrary states -/

theorem push_unsafe_frame (alloc : Option Nat) (w : World) (x : Nat) (r : Res)
    (h : event_queue_push_unsafe alloc w x = .ok r) :
    watchers r.w.eq = watchers w.eq ∧ r.w.eq.nr_await = w.eq.nr_await ∧ r.trace = [] ∧
      r.out = none ∧ r.errno = none ∧
      ((r.ret = 0 ∧ r.w.eq.nr_events = w.eq.nr_events + 1) ∨ (r.ret = -1 ∧ r.w = w)) := by
  unfold event_queue_push_unsafe at h
  split at h
  · cases h
    exact ⟨rfl, rfl, rfl, rfl, rfl, Or.inr ⟨rfl, rfl⟩⟩
  · simp only at h
    split at h
    · split at h
      · cases h
        exact ⟨rfl, rfl, rfl, rfl, rfl, Or.inl ⟨rfl, rfl⟩⟩
      · cases h
    · split at h
      · split at h
        · cases h
        · cases h
          exact ⟨rfl, rfl, rfl, rfl, rfl, Or.inl ⟨rfl, rfl⟩⟩
      · cases h

theorem pop_unsafe_cases (w : World) (pevent : Bool) (r : Res)
    (h : event_queue_pop_unsafe w pevent = .ok r) :
    r.errno = none ∧
    ((r.ret = -1 ∧ r.w = w ∧ r.trace = [] ∧ r.out = none ∧ w.eq.head = none ∧
        w.eq.tail = none) ∨
      (r.ret = 0 ∧ ∃ e en, w.eq.head = some e ∧ w.mem e = some en ∧
        r.trace = [Ev.eqent_free e] ∧ r.out = (if pevent then some en.event else none) ∧
        r.w.eq.nr_events = w.eq.nr_events - 1 ∧ r.w.eq.head = en.next ∧
        r.w.mem = release w.mem e)) := by
  unfold event_queue_pop_unsafe at h
  split at h
  · split at h
    · cases h
      rename_i hh ht
      exact ⟨rfl, Or.inl ⟨rfl, rfl, rfl, rfl, hh, ht⟩⟩
    · cases h
  · split at h
    · cases h
    · split at h
      · cases h
      · split at h
        · cases h
        · cases h
          refine ⟨rfl, Or.inr ⟨rfl, _, _, ?_, ?_, rfl, rfl, rfl, rfl, rfl⟩⟩
          · assumption
          · assumption

theorem post_calls (alloc : Option Nat) (w : World) (x : Nat) (r : Res)
    (h : event_queue_post alloc w x = .ok r) :
    watchers r.w.eq = watchers w.eq ∧ r.w.eq.nr_await = w.eq.nr_await ∧
      r.trace.filter is_nt_watcher = [] ∧
      ((r.ret = 0 ∧ r.w.eq.nr_events = w.eq.nr_events + 1 ∧
          r.trace.filter is_ne_watcher = ne_call w.eq (w.eq.nr_events + 1) 1) ∨
        (r.ret = -1 ∧ r.w = w ∧ r.trace = [])) := by
  unfold event_queue_post at h
  cases hp : event_queue_push_unsafe alloc w x with
  | error s => simp [hp] at h
  | ok r0 =>
    simp only [hp] at h
    obtain ⟨a1, a2, a3, _, _, a6⟩ := push_unsafe_frame alloc w x r0 hp
    rcases a6 with ⟨b1, b2⟩ | ⟨b1, b2⟩
    · rw [if_pos b1] at h
      simp only [Except.ok.injEq] at h
      subst h
      have hw := a1
      simp only [watchers, Prod.mk.injEq] at hw
      have e2 := call_ne_eq r0.w.eq w.eq (w.eq.nr_events + 1) 1 b2 hw.2.1 hw.1
      refine ⟨a1, a2, ?_, Or.inl ⟨b1, b2, ?_⟩⟩
      · apply filter_eq_nil_of
        intro e he
        simp only [a3, List.nil_append, List.singleton_append, List.mem_cons] at he
        rcases he with he | he
        · subst he; rfl
        · exact (call_ne_events _ _ e he).2.1
      · simp only [a3, e2, List.nil_append, List.singleton_append, List.filter_cons,
          is_ne_watcher]
        exact filter_eq_self_of _ _ (fun e he => (ne_call_events _ _ _ e he).2.2)
    · have hne : ¬ (r0.ret = 0) := by rw [b1]; decide
      rw [if_neg hne] at h
      simp only [Except.ok.injEq] at h
      subst h
      exact ⟨a1, a2, by simp [a3], Or.inr ⟨b1, b2, a3⟩⟩

theorem trywait_calls (w : World) (pevent : Bool) (r : Res)
    (h : event_queue_trywait w pevent = .ok r) :
    watchers r.w.eq = watchers w.eq ∧ r.w.eq.nr_await = w.eq.nr_await ∧
      r.trace.filter is_nt_watcher = [] ∧
      ((r.ret = 0 ∧ r.w.eq.nr_events = w.eq.nr_events - 1 ∧
          r.trace.filter is_ne_watcher = ne_call w.eq (w.eq.nr_events - 1) (-1)) ∨
        (r.ret = -1 ∧ r.w = w ∧ r.trace = [])) := by
  unfold event_queue_trywait at h
  cases hp : event_queue_pop_unsafe w pevent with
  | error s => simp [hp] at h
  | ok r0 =>
    simp only [hp] at h
    obtain ⟨a1, a2, a3, _⟩ := pop_unsafe_frame w pevent r0 hp
    obtain ⟨_, hc⟩ := pop_unsafe_cases w pevent r0 hp
    rcases hc with ⟨b1, b2, b3, _⟩ | ⟨b1, e, en, _, _, b3, _, b5, _⟩
    · have hneg : ¬ ¬ (r0.ret < 0) := by rw [b1]; decide
      rw [if_neg hneg] at h
      simp only [Except.ok.injEq] at h
      subst h
      exact ⟨a2, a1, by simp [b3], Or.inr ⟨b1, b2, b3⟩⟩
    · have hpos : ¬ (r0.ret < 0) := by rw [b1]; decide
      rw [if_pos hpos] at h
      simp only [Except.ok.injEq] at h
      subst h
      have hw := a2
      simp only [watchers, Prod.mk.injEq] at hw
      have e2 := call_ne_eq r0.w.eq w.eq (w.eq.nr_events - 1) (-1) b5 hw.2.1 hw.1
      refine ⟨a2, a1, ?_, Or.inl ⟨b1, b5, ?_⟩⟩
      · apply filter_eq_nil_of
        intro e1 he
        rcases List.mem_append.1 he with he | he
        · exact a3 e1 he
        · exact (call_ne_events _ _ e1 he).2.1
      · simp only [b3, e2, List.singleton_append, List.filter_cons, is_ne_watcher]
        exact filter_eq_self_of _ _ (fun e1 he => (ne_call_events _ _ _ e1 he).2.2)

/-! ## The last pop of a waiting loop -/

/-- A returning `wait_loop` consumed some `k` wait outcomes, its pops before the last
one failed and left the state alone, and its last pop succeeded; `Q` is any property of
the state that the other threads keep. -/
theorem wait_loop_last_pop (pevent : Bool) (Q : World → Prop) :
    ∀ (env : List WaitOutcome) (w : World) (r : Res),
      Q w → (∀ o ∈ env, ∀ v, Q v → Q (o.wake v)) →
      wait_loop pevent env w = .ok r →
      ∃ (k : Nat) (u : World) (r0 : Res), k ≤ env.length ∧ Q u ∧
        event_queue_pop_unsafe u pevent = .ok r0 ∧ r0.ret = 0 ∧
        r = { r0 with trace := List.replicate k Ev.cond_wait ++ r0.trace } ∧
        u = wakes (env.take k) w
  | [], w, r, hq, _, h => by
    unfold wait_loop at h
    cases hp : event_queue_pop_unsafe w pevent with
    | error s => simp [hp] at h
    | ok r0 =>
      simp only [hp] at h
      obtain ⟨_, hc⟩ := pop_unsafe_cases w pevent r0 hp
      by_cases hc1 : r0.ret < 0
      · rw [if_pos hc1] at h
        cases h
      · rw [if_neg hc1] at h
        simp only [Except.ok.injEq] at h
        subst h
        have h0 : r0.ret = 0 := by
          rcases hc with ⟨b, _⟩ | ⟨b, _⟩
          · rw [b] at hc1; exact absurd (by decide) hc1
          · exact b
        exact ⟨0, w, r0, le_refl _, hq, hp, h0, by simp, by simp [wakes]⟩
  | o :: env, w, r, hq, henv, h => by
    unfold wait_loop at h
    cases hp : event_queue_pop_unsafe w pevent with
    | error s => simp [hp] at h
    | ok r0 =>
      simp only [hp] at h
      obtain ⟨_, hc⟩ := pop_unsafe_cases w pevent r0 hp
      by_cases hc1 : r0.ret < 0
      · rw [if_pos hc1] at h
        have hst : r0.w = w ∧ r0.trace = [] := by
          rcases hc with ⟨_, b2, b3, _⟩ | ⟨b, _⟩
          · exact ⟨b2, b3⟩
          · rw [b] at hc1; exact absurd hc1 (by decide)
        cases hl : wait_loop pevent env (o.wake r0.w) with
        | error s => simp [hl] at h
        | ok r1 =>
          simp only [hl, Except.ok.injEq] at h
          subst h
          have hq1 : Q (o.wake r0.w) := by
            rw [hst.1]
            exact henv o (by simp) w hq
          obtain ⟨k, u, r2, hk, hu, hp2, h0, hr, hst2⟩ :=
            wait_loop_last_pop pevent Q env (o.wake r0.w) r1 hq1
              (fun o1 ho1 => henv o1 (by simp [ho1])) hl
          refine ⟨k + 1, u, r2, by simp only [List.length_cons]; omega, hu, hp2, h0, ?_, ?_⟩
          · rw [hr, hst.2]
            simp [List.replicate_succ]
          · rw [hst2, hst.1]
            simp [wakes]
      · rw [if_neg hc1] at h
        simp only [Except.ok.injEq] at h
        subst h
        have h0 : r0.ret = 0 := by
          rcases hc with ⟨b, _⟩ | ⟨b, _⟩
          · rw [b] at hc1; exact absurd (by decide) hc1
          · exact b
        exact ⟨0, w, r0, Nat.zero_le _, hq, hp, h0, by simp, by simp [wakes]⟩

/-- A returning `timedwait_loop` consumed the first `k` wait outcomes, its pops before
the last one failed and left the state alone; the result is that of the last pop, and
when that pop failed the last wait code was `ETIMEDOUT`. -/
theorem timedwait_loop_last_pop (pevent : Bool) (Q : World → Prop) :
    ∀ (env : List WaitOutcome) (w : World) (pe : Int) (r : Res) (pe1 : Int),
      Q w → (∀ o ∈ env, ∀ v, Q v → Q (o.wake v)) →
      timedwait_loop pevent env w pe = .ok (r, pe1) →
      ∃ (k : Nat) (u : World) (r0 : Res), k ≤ env.length ∧ Q u ∧
        event_queue_pop_unsafe u pevent = .ok r0 ∧
        r = { r0 with
          trace := (env.take k).map (fun o => Ev.cond_timedwait o.code) ++ r0.trace } ∧
        pe1 = last_code (env.take k) pe ∧ (r0.ret < 0 → pe1 = ETIMEDOUT) ∧
        u = wakes (env.take k) w
  | [], w, pe, r, pe1, hq, _, h => by
    unfold timedwait_loop at h
    cases hp : event_queue_pop_unsafe w pevent with
    | error s => simp [hp] at h
    | ok r0 =>
      simp only [hp] at h
      by_cases hc1 : r0.ret < 0 ∧ pe ≠ ETIMEDOUT
      · rw [if_pos hc1] at h
        cases h
      · rw [if_neg hc1] at h
        simp only [Except.ok.injEq, Prod.mk.injEq] at h
        obtain ⟨h1, h2⟩ := h
        subst h1 h2
        refine ⟨0, w, r0, le_refl _, hq, hp, by simp, by simp [last_code], ?_, by simp [wakes]⟩
        intro hneg
        by_contra hpe
        exact hc1 ⟨hneg, hpe⟩
  | o :: env, w, pe, r, pe1, hq, henv, h => by
    unfold timedwait_loop at h
    cases hp : event_queue_pop_unsafe w pevent with
    | error s => simp [hp] at h
    | ok r0 =>
      simp only [hp] at h
      obtain ⟨_, hc⟩ := pop_unsafe_cases w pevent r0 hp
      by_cases hc1 : r0.ret < 0 ∧ pe ≠ ETIMEDOUT
      · rw [if_pos hc1] at h
        have hst : r0.w = w ∧ r0.trace = [] := by
          rcases hc with ⟨_, b2, b3, _⟩ | ⟨b, _⟩
          · exact ⟨b2, b3⟩
          · have := hc1.1
            rw [b] at this
            exact absurd this (by decide)
        cases hl : timedwait_loop pevent env (o.wake r0.w) o.code with
        | error s => simp [hl] at h
        | ok x =>
          obtain ⟨r1, pe2⟩ := x
          simp only [hl, Except.ok.injEq, Prod.mk.injEq] at h
          obtain ⟨h1, h2⟩ := h
          subst h1 h2
          have hq1 : Q (o.wake r0.w) := by
            rw [hst.1]
            exact henv o (by simp) w hq
          obtain ⟨k, u, r2, hk, hu, hp2, hr, hpe, hto, hst2⟩ :=
            timedwait_loop_last_pop pevent Q env (o.wake r0.w) o.code r1 pe2 hq1
              (fun o1 ho1 => henv o1 (by simp [ho1])) hl
          refine ⟨k + 1, u, r2, by simp only [List.length_cons]; omega, hu, hp2, ?_, ?_,
            hto, ?_⟩
          · rw [hr, hst.2]
            simp
          · simpa [last_code] using hpe
          · rw [hst2, hst.1]
            simp [wakes]
      · rw [if_neg hc1] at h
        simp only [Except.ok.injEq, Prod.mk.injEq] at h
        obtain ⟨h1, h2⟩ := h
        subst h1 h2
        refine ⟨0, w, r0, Nat.zero_le _, hq, hp, by simp, by simp [last_code], ?_,
          by simp [wakes]⟩
        intro hneg
        by_contra hpe
        exact hc1 ⟨hneg, hpe⟩

theorem wait_unfold (env : List WaitOutcome) (w : World) (pevent : Bool) (r : Res)
    (h : event_queue_wait env w pevent = .ok r) :
    ∃ r1, wait_loop pevent env
          { w with eq := { w.eq with nr_await := w.eq.nr_await + 1 } } = .ok r1 ∧
      r = { ret := 0,
            w := { r1.w with eq := { r1.w.eq with nr_await := r1.w.eq.nr_await - 1 } },
            trace := event_queue_call_nt_watcher_unsafe
                { w.eq with nr_await := w.eq.nr_await + 1 } 1 ++ r1.trace ++
              event_queue_call_ne_watcher_unsafe r1.w.eq (-1) ++
              event_queue_call_nt_watcher_unsafe
                { r1.w.eq with nr_await := r1.w.eq.nr_await - 1 } (-1),
            out := r1.out } := by
  unfold event_queue_wait at h
  simp only at h
  cases hl : wait_loop pevent env
      { w with eq := { w.eq with nr_await := w.eq.nr_await + 1 } } with
  | error s => simp [hl] at h
  | ok r1 =>
    simp only [hl, Except.ok.injEq] at h
    exact ⟨r1, rfl, h.symm⟩

theorem timedwait_unfold (env : List WaitOutcome) (w : World) (pevent : Bool) (r : Res)
    (h : event_queue_timedwait env w pevent = .ok r) :
    ∃ r1 pe1, timedwait_loop pevent env
          { w with eq := { w.eq with nr_await := w.eq.nr_await + 1 } } 0 = .ok (r1, pe1) ∧
      r = { ret := r1.ret,
            w := { r1.w with eq := { r1.w.eq with nr_await := r1.w.eq.nr_await - 1 } },
            trace := event_queue_call_nt_watcher_unsafe
                { w.eq with nr_await := w.eq.nr_await + 1 } 1 ++ r1.trace ++
              (if ¬ (r1.ret < 0) then event_queue_call_ne_watcher_unsafe r1.w.eq (-1)
               else []) ++
              event_queue_call_nt_watcher_unsafe
                { r1.w.eq with nr_await := r1.w.eq.nr_await - 1 } (-1),
            out := r1.out,
            errno := if r1.ret < 0 then some pe1 else none } := by
  unfold event_queue_timedwait at h
  simp only at h
  cases hl : timedwait_loop pevent env
      { w with eq := { w.eq with nr_await := w.eq.nr_await + 1 } } 0 with
  | error s => simp [hl] at h
  | ok x =>
    obtain ⟨r1, pe1⟩ := x
    simp only [hl, Except.ok.injEq] at h
    exact ⟨r1, pe1, rfl, h.symm⟩

theorem wait_nt_calls (env : List WaitOutcome) (w : World) (pevent : Bool) (r : Res)
    (henv : ∀ o ∈ env, ∀ u, same_waiters (o.wake u) u)
    (h : event_queue_wait env w pevent = .ok r) :
    r.w.eq.nr_await = w.eq.nr_await ∧
    r.w.eq.nt_watcher_cb = w.eq.nt_watcher_cb ∧
    r.w.eq.nt_watcher_data = w.eq.nt_watcher_data ∧
    r.trace.filter is_nt_watcher =
      nt_call w.eq (w.eq.nr_await + 1) 1 ++ nt_call w.eq w.eq.nr_await (-1) := by
  obtain ⟨r1, hl, hr⟩ := wait_unfold env w pevent r h
  obtain ⟨⟨a1, a2, a3⟩, a4⟩ := wait_loop_frame pevent env _ r1 henv hl
  simp only at a1 a2 a3
  have e1 := call_nt_eq { w.eq with nr_await := w.eq.nr_await + 1 } w.eq
    (w.eq.nr_await + 1) 1 rfl rfl rfl
  have e3 := call_nt_eq { r1.w.eq with nr_await := r1.w.eq.nr_await - 1 } w.eq
    w.eq.nr_await (-1) (by simp [a1]) a2 a3
  have hne : ∀ e ∈ event_queue_call_ne_watcher_unsafe r1.w.eq (-1),
      is_nt_watcher e = false := fun e he => (call_ne_events _ _ e he).2.1
  subst hr
  simp only [e1, e3]
  exact ⟨by simp [a1], a2, a3, waiter_trace w _ _ a4 hne⟩

/-- C11 (registration reports the current state): registering an event watcher with a
non-`NULL` callback stores it and calls it exactly once, with its context, the current
`nr_events` and direction `0`; registering a waiter watcher calls it exactly once with its
context, the current `nr_await` and direction `0`; nothing else of the state changes
(nodes, `head`, `tail`, `nr_events`, `nr_await`, the other registration).  After two
posts and no pop on a fresh queue the event watcher is called with count `2` and
direction `0`. -/
theorem C11_register_reports_state (w : World) (data cb : Nat) :
    event_queue_register_event_watcher w data (some cb) =
      { ret := 0,
        w := { w with eq := { w.eq with ne_watcher_data := data, ne_watcher_cb := some cb } },
        trace := [Ev.ne_watcher cb data w.eq.nr_events 0], out := none, errno := none } ∧
    event_queue_register_thread_watcher w data (some cb) =
      { ret := 0,
        w := { w with eq := { w.eq with nt_watcher_data := data, nt_watcher_cb := some cb } },
        trace := [Ev.nt_watcher cb data w.eq.nr_await 0], out := none, errno := none } ∧
    (∃ w2, post_all [(1, 10), (2, 20)] (event_queue_init (some 100) w_raw).w =
        .ok ([0, 0], w2) ∧
      (event_queue_register_event_watcher w2 7 (some 70)).trace =
        [Ev.ne_watcher 70 7 2 0]) := by
  refine ⟨rfl, rfl, ?_⟩
  obtain ⟨h0, hm⟩ := init_wf (some 100) w_raw (by decide)
  obtain ⟨w2, h1, h2⟩ := post_all_wf [(1, 10), (2, 20)] _ [] h0 (by decide) (by decide)
  refine ⟨w2, h1, ?_⟩
  have hc := h2.count
  simp only [event_queue_register_event_watcher, event_queue_call_ne_watcher_unsafe, hc]
  rfl

/-! ## Watcher calls go to the registered watchers -/

theorem only_registered_append (q : event_queue) (t1 t2 : List Ev)
    (h1 : only_registered q t1) (h2 : only_registered q t2) :
    only_registered q (t1 ++ t2) := by
  intro e he
  rcases List.mem_append.1 he with he | he
  · exact h1 e he
  · exact h2 e he

theorem only_registered_plain (q : event_queue) (t : List Ev)
    (h : ∀ e ∈ t, is_ne_watcher e = false ∧ is_nt_watcher e = false) :
    only_registered q t := by
  intro e he
  obtain ⟨h1, h2⟩ := h e he
  constructor
  · intro cb d n dir hq
    subst hq
    simp [is_ne_watcher] at h1
  · intro cb d n dir hq
    subst hq
    simp [is_nt_watcher] at h2

theorem call_ne_registered (q q1 : event_queue) (dir : Int)
    (h : watchers q1 = watchers q) :
    only_registered q ( event_queue_call_ne_watcher_unsafe q1 dir) := by
  simp only [watchers, Prod.mk.injEq] at h
  intro e he
  unfold event_queue_call_ne_watcher_unsafe at he
  cases hq : q1.ne_watcher_cb with
  | none => simp [hq] at he
  | some cb =>
    simp only [hq, List.mem_singleton] at he
    subst he
    constructor
    · intro cb1 d n dir1 he1
      simp only [Ev.ne_watcher.injEq] at he1
      exact ⟨by rw [← h.2.1, hq, he1.1], by rw [← h.1, he1.2.1]⟩
    · intro cb1 d n dir1 he1
      cases he1

theorem call_nt_registered (q q1 : event_queue) (dir : Int)
    (h : watchers q1 = watchers q) :
    only_registered q ( event_queue_call_nt_watcher_unsafe q1 dir) := by
  simp only [watchers, Prod.mk.injEq] at h
  intro e he
  unfold event_queue_call_nt_watcher_unsafe at he
  cases hq : q1.nt_watcher_cb with
  | none => simp [hq] at he
  | some cb =>
    simp only [hq, List.mem_singleton] at he
    subst he
    constructor
    · intro cb1 d n dir1 he1
      cases he1
    · intro cb1 d n dir1 he1
      simp only [Ev.nt_watcher.injEq] at he1
      exact ⟨by rw [← h.2.2.2, hq, he1.1], by rw [← h.2.2.1, he1.2.1]⟩

theorem pop_unsafe_plain (w : World) (pevent : Bool) (r : Res)
    (h : event_queue_pop_unsafe w pevent = .ok r) :
    ∀ e ∈ r.trace, is_ne_watcher e = false ∧ is_nt_watcher e = false := by
  obtain ⟨_, hc⟩ := pop_unsafe_cases w pevent r h
  intro e he
  rcases hc with ⟨_, _, b3, _⟩ | ⟨_, a, en, _, _, b3, _⟩
  · rw [b3] at he
    simp at he
  · rw [b3] at he
    simp only [List.mem_singleton] at he
    subst he
    exact ⟨rfl, rfl⟩

theorem post_registered (alloc : Option Nat) (v : World) (x : Nat) (r : Res)
    (h : event_queue_post alloc v x = .ok r) :
    watchers r.w.eq = watchers v.eq ∧ only_registered v.eq r.trace := by
  unfold event_queue_post at h
  cases hp : event_queue_push_unsafe alloc v x with
  | error s => simp [hp] at h
  | ok r0 =>
    simp only [hp] at h
    obtain ⟨a1, _, a3, _⟩ := push_unsafe_frame alloc v x r0 hp
    by_cases hc : r0.ret = 0
    · rw [if_pos hc] at h
      simp only [Except.ok.injEq] at h
      subst h
      refine ⟨a1, ?_⟩
      simp only [a3, List.nil_append]
      exact only_registered_append _ _ _
        (only_registered_plain _ _ (by
          intro e he
          simp only [List.mem_singleton] at he
          subst he
          exact ⟨rfl, rfl⟩))
        (call_ne_registered v.eq r0.w.eq 1 a1)
    · rw [if_neg hc] at h
      simp only [Except.ok.injEq] at h
      subst h
      refine ⟨a1, ?_⟩
      rw [a3]
      exact only_registered_plain _ _ (by simp)

theorem trywait_registered (v : World) (pevent : Bool) (r : Res)
    (h : event_queue_trywait v pevent = .ok r) :
    watchers r.w.eq = watchers v.eq ∧ only_registered v.eq r.trace := by
  unfold event_queue_trywait at h
  cases hp : event_queue_pop_unsafe v pevent with
  | error s => simp [hp] at h
  | ok r0 =>
    simp only [hp] at h
    obtain ⟨_, a1, _, _⟩ := pop_unsafe_frame v pevent r0 hp
    have hpl := pop_unsafe_plain v pevent r0 hp
    by_cases hc : ¬ (r0.ret < 0)
    · rw [if_pos hc] at h
      simp only [Except.ok.injEq] at h
      subst h
      exact ⟨a1, only_registered_append _ _ _ (only_registered_plain _ _ hpl)
        (call_ne_registered v.eq r0.w.eq (-1) a1)⟩
    · rw [if_neg hc] at h
      simp only [Except.ok.injEq] at h
      subst h
      exact ⟨a1, only_registered_plain _ _ hpl⟩

theorem wait_registered (env : List WaitOutcome) (v : World) (pevent : Bool) (r : Res)
    (henv : ∀ o ∈ env, ∀ u, watchers (o.wake u).eq = watchers u.eq)
    (h : event_queue_wait env v pevent = .ok r) :
    watchers r.w.eq = watchers v.eq ∧ only_registered v.eq r.trace := by
  obtain ⟨r1, hl, hr⟩ := wait_unfold env v pevent r h
  obtain ⟨k, u, r0, _, hu, hp, _, hr1, _⟩ :=
    wait_loop_last_pop pevent (fun u => watchers u.eq = watchers v.eq) env
      { v with eq := { v.eq with nr_await := v.eq.nr_await + 1 } } r1 rfl
      (fun o ho u hu => (henv o ho u).trans hu) hl
  obtain ⟨_, a1, _, _⟩ := pop_unsafe_frame u pevent r0 hp
  have hpl := pop_unsafe_plain u pevent r0 hp
  have hw1 : watchers r1.w.eq = watchers v.eq := by
    rw [hr1]
    exact a1.trans hu
  have htr : only_registered v.eq r1.trace := by
    rw [hr1]
    apply only_registered_plain
    intro e he
    simp only [List.mem_append, List.mem_replicate] at he
    rcases he with ⟨_, he⟩ | he
    · subst he
      exact ⟨rfl, rfl⟩
    · exact hpl e he
  subst hr
  refine ⟨hw1, ?_⟩
  exact only_registered_append _ _ _
    (only_registered_append _ _ _
      (only_registered_append _ _ _ (call_nt_registered v.eq _ 1 rfl) htr)
      (call_ne_registered v.eq r1.w.eq (-1) hw1))
    (call_nt_registered v.eq _ (-1) hw1)

theorem timedwait_registered (env : List WaitOutcome) (v : World) (pevent : Bool)
    (r : Res) (henv : ∀ o ∈ env, ∀ u, watchers (o.wake u).eq = watchers u.eq)
    (h : event_queue_timedwait env v pevent = .ok r) :
    watchers r.w.eq = watchers v.eq ∧ only_registered v.eq r.trace := by
  obtain ⟨r1, pe1, hl, hr⟩ := timedwait_unfold env v pevent r h
  obtain ⟨k, u, r0, _, hu, hp, hr1, _⟩ :=
    timedwait_loop_last_pop pevent (fun u => watchers u.eq = watchers v.eq) env
      { v with eq := { v.eq with nr_await := v.eq.nr_await + 1 } } 0 r1 pe1
      rfl (fun o ho u hu => (henv o ho u).trans hu) hl
  obtain ⟨_, a1, _, _⟩ := pop_unsafe_frame u pevent r0 hp
  have hpl := pop_unsafe_plain u pevent r0 hp
  have hw1 : watchers r1.w.eq = watchers v.eq := by
    rw [hr1]
    exact a1.trans hu
  have htr : only_registered v.eq r1.trace := by
    rw [hr1]
    apply only_registered_plain
    intro e he
    simp only [List.mem_append, List.mem_map] at he
    rcases he with ⟨o, _, he⟩ | he
    · subst he
      exact ⟨rfl, rfl⟩
    · exact hpl e he
  have hmid : only_registered v.eq
      (if ¬ (r1.ret < 0) then event_queue_call_ne_watcher_unsafe r1.w.eq (-1) else []) := by
    split
    · exact call_ne_registered v.eq r1.w.eq (-1) hw1
    · exact only_registered_plain _ _ (by simp)
  subst hr
  refine ⟨hw1, ?_⟩
  exact only_registered_append _ _ _
    (only_registered_append _ _ _
      (only_registered_append _ _ _ (call_nt_registered v.eq _ 1 rfl) htr) hmid)
    (call_nt_registered v.eq _ (-1) hw1)

/-- C12 (one observer per kind, replaced on re-registration): after registering event
watcher `(dA, A)` and then `(dB, B)`, the stored registration is `(dB, B)`, the waiter
watcher registration is untouched, the second registration itself calls only `B` (with
`dB`, the current count and direction `0`; nothing when `B` is `NULL`), and every later
`event_queue_post` and `event_queue_trywait` keeps the registration and calls only `B`
with `dB` (nothing when `B` is `NULL`).  The same holds for the waiter watcher, with
`event_queue_wait` as the later operation.  In general, from any state, a returning
`event_queue_post`, `event_queue_trywait`, `event_queue_wait` or `event_queue_timedwait`
(the other threads leaving the registrations alone during the waits) keeps both
registrations, and every watcher call it makes is a call of the watcher of that kind
registered on entry, with the registered context; a kind with a `NULL` callback is not
called. -/
theorem C12_single_observer (w : World) (dA dB : Nat) (A B : Option Nat) :
    ((register_event_twice w dA A dB B).w.eq.ne_watcher_cb = B ∧
      (register_event_twice w dA A dB B).w.eq.ne_watcher_data = dB ∧
      (register_event_twice w dA A dB B).w.eq.nt_watcher_cb = w.eq.nt_watcher_cb ∧
      (register_event_twice w dA A dB B).w.eq.nt_watcher_data = w.eq.nt_watcher_data ∧
      (register_event_twice w dA A dB B).trace =
        (match B with
         | some b => [Ev.ne_watcher b dB w.eq.nr_events 0]
         | none => []) ∧
      (∀ (alloc : Option Nat) (x : Nat) (r : Res),
        event_queue_post alloc (register_event_twice w dA A dB B).w x = .ok r →
          r.w.eq.ne_watcher_cb = B ∧ r.w.eq.ne_watcher_data = dB ∧
          r.trace.filter is_ne_watcher =
            (match B with
             | some b => if r.ret = 0 then [Ev.ne_watcher b dB r.w.eq.nr_events 1] else []
             | none => [])) ∧
      (∀ (pevent : Bool) (r : Res),
        event_queue_trywait (register_event_twice w dA A dB B).w pevent = .ok r →
          r.w.eq.ne_watcher_cb = B ∧ r.w.eq.ne_watcher_data = dB ∧
          r.trace.filter is_ne_watcher =
            (match B with
             | some b => if r.ret = 0 then [Ev.ne_watcher b dB r.w.eq.nr_events (-1)] else []
             | none => []))) ∧
    ((register_thread_twice w dA A dB B).w.eq.nt_watcher_cb = B ∧
      (register_thread_twice w dA A dB B).w.eq.nt_watcher_data = dB ∧
      (register_thread_twice w dA A dB B).w.eq.ne_watcher_cb = w.eq.ne_watcher_cb ∧
      (register_thread_twice w dA A dB B).w.eq.ne_watcher_data = w.eq.ne_watcher_data ∧
      (register_thread_twice w dA A dB B).trace =
        (match B with
         | some b => [Ev.nt_watcher b dB w.eq.nr_await 0]
         | none => []) ∧
      (∀ (env : List WaitOutcome) (pevent : Bool) (r : Res),
        (∀ o ∈ env, ∀ u, same_waiters (o.wake u) u) →
        event_queue_wait env (register_thread_twice w dA A dB B).w pevent = .ok r →
          r.w.eq.nt_watcher_cb = B ∧ r.w.eq.nt_watcher_data = dB ∧
          r.trace.filter is_nt_watcher =
            (match B with
             | some b => [Ev.nt_watcher b dB (w.eq.nr_await + 1) 1,
                          Ev.nt_watcher b dB w.eq.nr_await (-1)]
             | none => []))) ∧
    (∀ (v : World) (env : List WaitOutcome) (pevent : Bool) (alloc : Option Nat) (x : Nat)
        (r : Res),
      (∀ o ∈ env, ∀ u, watchers (o.wake u).eq = watchers u.eq) →
      (event_queue_post alloc v x = .ok r ∨ event_queue_trywait v pevent = .ok r ∨
        event_queue_wait env v pevent = .ok r ∨
        event_queue_timedwait env v pevent = .ok r) →
      watchers r.w.eq = watchers v.eq ∧ only_registered v.eq r.trace) := by
  refine ⟨⟨rfl, rfl, rfl, rfl, ?_, ?_, ?_⟩, ⟨rfl, rfl, rfl, rfl, ?_, ?_⟩, ?_⟩
  rotate_right
  · intro v env pevent alloc x r henv h
    rcases h with h | h | h | h
    · exact post_registered alloc v x r h
    · exact trywait_registered v pevent r h
    · exact wait_registered env v pevent r henv h
    · exact timedwait_registered env v pevent r henv h
  · cases B <;> rfl
  · intro alloc x r h
    obtain ⟨a1, _, _, a4⟩ := post_calls alloc _ x r h
    simp only [watchers, Prod.mk.injEq] at a1
    refine ⟨a1.2.1, a1.1, ?_⟩
    rcases a4 with ⟨b1, b2, b3⟩ | ⟨b1, _, b3⟩
    · rw [b3, b2]
      cases B <;> simp [ne_call, register_event_twice, event_queue_register_event_watcher, b1]
    · have hne : ¬ (r.ret = 0) := by rw [b1]; decide
      rw [b3]
      cases B <;> simp [hne]
  · intro pevent r h
    obtain ⟨a1, _, _, a4⟩ := trywait_calls _ pevent r h
    simp only [watchers, Prod.mk.injEq] at a1
    refine ⟨a1.2.1, a1.1, ?_⟩
    rcases a4 with ⟨b1, b2, b3⟩ | ⟨b1, _, b3⟩
    · rw [b3, b2]
      cases B <;> simp [ne_call, register_event_twice, event_queue_register_event_watcher, b1]
    · have hne : ¬ (r.ret = 0) := by rw [b1]; decide
      rw [b3]
      cases B <;> simp [hne]
  · cases B <;> rfl
  · intro env pevent r henv h
    obtain ⟨_, a2, a3, a4⟩ := wait_nt_calls env _ pevent r henv h
    refine ⟨a2, a3, ?_⟩
    rw [a4]
    cases B <;>
      simp [nt_call, register_thread_twice, event_queue_register_thread_watcher]

/-! ## Teardown -/

theorem destory_loop_wf :
    ∀ (nodes : List (Nat × Nat)) (fuel : Nat) (w : World),
      WF w nodes → nodes.length < fuel →
      ∃ w1, destory_loop fuel w = .ok (w1, drain_trace nodes) ∧ WF w1 [] ∧
        w1.eq.nr_await = w.eq.nr_await ∧ watchers w1.eq = watchers w.eq ∧
        w1.mempool_eqent = w.mempool_eqent ∧
        (∀ a, w.mem a = none → w1.mem a = none) ∧
        (∀ n ∈ nodes, w1.mem n.1 = none)
  | _, 0, _, _, hf => by omega
  | [], fuel + 1, w, h, _ => by
    refine ⟨w, ?_, h, rfl, rfl, rfl, fun _ ha => ha, by simp⟩
    unfold destory_loop
    rw [pop_unsafe_nil w true h]
    simp [drain_trace]
  | n :: rest, fuel + 1, w, h, hf => by
    obtain ⟨w1, h1, h2, _, h4, h5, h6, h7⟩ := pop_unsafe_cons w n rest true h
    have hf1 : rest.length < fuel := by
      simp only [List.length_cons] at hf
      omega
    obtain ⟨w2, k1, k2, k3, k4, k5, k6, k7⟩ := destory_loop_wf rest fuel w1 h2 hf1
    have hrel : w1.mem n.1 = none := by
      rw [h7]
      simp [release]
    refine ⟨w2, ?_, k2, by rw [k3, h4], by rw [k4, h5], by rw [k5, h6], ?_, ?_⟩
    · unfold destory_loop
      rw [h1]
      simp [k1, drain_trace]
    · intro a ha
      apply k6
      rw [h7]
      simp only [release]
      split
      · rfl
      · exact ha
    · intro m hm
      simp only [List.mem_cons] at hm
      rcases hm with hm | hm
      · rw [hm]
        exact k6 _ hrel
      · exact k7 m hm

theorem drain_trace_lost (nodes : List (Nat × Nat)) :
    (drain_trace nodes).filter is_lost = nodes.map (fun n => Ev.lost n.2) := by
  induction nodes with
  | nil => rfl
  | cons n rest ih =>
    have : drain_trace (n :: rest) = Ev.eqent_free n.1 :: Ev.lost n.2 :: drain_trace rest := by
      simp [drain_trace]
    rw [this]
    simp [List.filter_cons, is_lost, ih]

theorem drain_trace_free (nodes : List (Nat × Nat)) :
    (drain_trace nodes).filter is_free = nodes.map (fun n => Ev.eqent_free n.1) := by
  induction nodes with
  | nil => rfl
  | cons n rest ih =>
    have : drain_trace (n :: rest) = Ev.eqent_free n.1 :: Ev.lost n.2 :: drain_trace rest := by
      simp [drain_trace]
    rw [this]
    simp [List.filter_cons, is_free, ih]

theorem drain_trace_ne (nodes : List (Nat × Nat)) :
    (drain_trace nodes).filter is_ne_watcher = [] := by
  induction nodes with
  | nil => rfl
  | cons n rest ih =>
    have : drain_trace (n :: rest) = Ev.eqent_free n.1 :: Ev.lost n.2 :: drain_trace rest := by
      simp [drain_trace]
    rw [this]
    simp [List.filter_cons, is_ne_watcher, ih]

theorem pool_destory_events (w : World) :
    (mempool_eqent_destory w).2.filter is_lost = [] ∧
    (mempool_eqent_destory w).2.filter is_free = [] ∧
    (mempool_eqent_destory w).2.filter is_ne_watcher = [] ∧
    (mempool_eqent_destory w).1.eq = w.eq ∧ (mempool_eqent_destory w).1.mem = w.mem ∧
    (mempool_eqent_destory w).1.mempool_eqent = none := by
  unfold mempool_eqent_destory
  cases h : w.mempool_eqent with
  | none => exact ⟨rfl, rfl, rfl, rfl, rfl, h⟩
  | some p => exact ⟨rfl, rfl, rfl, rfl, rfl, rfl⟩

theorem destory_wf (w : World) (nodes : List (Nat × Nat)) (fuel : Nat)
    (h : WF w nodes) (hf : nodes.length < fuel) :
    ∃ w1, event_queue_destory fuel w =
        .ok { ret := 0, w := (mempool_eqent_destory w1).1,
              trace := drain_trace nodes ++ (mempool_eqent_destory w1).2 } ∧
      WF w1 [] ∧ w1.mempool_eqent = w.mempool_eqent ∧ (∀ n ∈ nodes, w1.mem n.1 = none) := by
  obtain ⟨w1, h1, h2, _, _, h5, _, h7⟩ := destory_loop_wf nodes fuel w h hf
  refine ⟨w1, ?_, h2, h5, h7⟩
  unfold event_queue_destory
  rw [h1]

/-! ## Event-watcher calls and the event count -/

theorem ne_call_registered (q : event_queue) (cb : Nat) (nr dir : Int)
    (hreg : q.ne_watcher_cb = some cb) :
    ne_call q nr dir = [Ev.ne_watcher cb q.ne_watcher_data nr dir] := by
  simp only [ne_call, hreg]

theorem call_nt_plain (q : event_queue) (d : Int) :
    ∀ e ∈ event_queue_call_nt_watcher_unsafe q d,
      is_ne_watcher e = false ∧ is_wait e = false := fun e he =>
  ⟨(call_nt_events q d e he).2.1, (call_nt_events q d e he).1⟩

theorem waits_events (l : List WaitOutcome) :
    ∀ e ∈ l.map (fun o => Ev.cond_timedwait o.code),
      is_wait e = true ∧ is_ne_watcher e = false ∧ is_free e = false := by
  intro e he
  simp only [List.mem_map] at he
  obtain ⟨o, _, ho⟩ := he
  subst ho
  exact ⟨rfl, rfl, rfl⟩

/-- The event-watcher calls and the waits of a returning `event_queue_wait`: it made
`k` waits; the state `u` of its last pop is the entry state (with the waiter registered)
changed only by the wake-ups of those waits; that pop took `nr_events` from its value in
`u` to one less, and the event watcher was called exactly once, with that new count and
direction `-1`. -/
theorem wait_ne_exact (env : List WaitOutcome) (w : World) (pevent : Bool) (r : Res)
    (cb : Nat) (hreg : w.eq.ne_watcher_cb = some cb)
    (henv : ∀ o ∈ env, ∀ u, same_ne_watcher (o.wake u) u)
    (h : event_queue_wait env w pevent = .ok r) :
    ∃ k, k ≤ env.length ∧
      r.trace.filter is_wait = List.replicate k Ev.cond_wait ∧
      r.w.eq.nr_events =
        (wakes (env.take k)
          { w with eq := { w.eq with nr_await := w.eq.nr_await + 1 } }).eq.nr_events - 1 ∧
      r.trace.filter is_ne_watcher =
        [Ev.ne_watcher cb w.eq.ne_watcher_data
          ((wakes (env.take k)
            { w with eq := { w.eq with nr_await := w.eq.nr_await + 1 } }).eq.nr_events - 1)
          (-1)] := by
  obtain ⟨r1, hl, hr⟩ := wait_unfold env w pevent r h
  obtain ⟨k, u, r0, hk, ⟨q2, q3⟩, hp, _, hr1, hu⟩ :=
    wait_loop_last_pop pevent (fun v => same_ne_watcher v w) env
      { w with eq := { w.eq with nr_await := w.eq.nr_await + 1 } } r1 ⟨rfl, rfl⟩
      (fun o ho v hv => by
        obtain ⟨a2, a3⟩ := henv o ho v
        exact ⟨a2.trans hv.1, a3.trans hv.2⟩) hl
  obtain ⟨_, hw, _, _⟩ := pop_unsafe_frame u pevent r0 hp
  obtain ⟨_, hc⟩ := pop_unsafe_cases u pevent r0 hp
  simp only [watchers, Prod.mk.injEq] at hw
  rcases hc with ⟨b1, _⟩ | ⟨_, e, en, _, _, b3, _, b5, _⟩
  · have h0 : r0.ret = 0 := by assumption
    rw [b1] at h0
    exact absurd h0 (by decide)
  · have hcount : r1.w.eq.nr_events = u.eq.nr_events - 1 := by
      rw [hr1]
      exact b5
    have e2 := call_ne_eq r1.w.eq w.eq (u.eq.nr_events - 1) (-1) hcount
      (by rw [hr1]; exact hw.2.1.trans q2) (by rw [hr1]; exact hw.1.trans q3)
    have htr : r1.trace = List.replicate k Ev.cond_wait ++ [Ev.eqent_free e] := by
      rw [hr1]
      simp only [b3]
    have hnt1 := call_nt_plain { w.eq with nr_await := w.eq.nr_await + 1 } 1
    have hnt3 := call_nt_plain { r1.w.eq with nr_await := r1.w.eq.nr_await - 1 } (-1)
    subst hr
    refine ⟨k, hk, ?_, ?_, ?_⟩
    · simp only [e2, htr, List.filter_append]
      rw [filter_eq_nil_of is_wait _ (fun e he => (hnt1 e he).2),
        filter_eq_nil_of is_wait _ (fun e he => (hnt3 e he).2),
        filter_eq_nil_of is_wait _ (fun e he => (ne_call_events _ _ _ e he).1),
        filter_eq_self_of is_wait (List.replicate k Ev.cond_wait) (by
          intro e1 he
          rw [(List.mem_replicate.1 he).2]
          rfl)]
      simp [is_wait]
    · rw [← hu]
      exact hcount
    · rw [← hu]
      simp only [e2, htr, List.filter_append]
      rw [filter_eq_nil_of is_ne_watcher _ (fun e he => (hnt1 e he).1),
        filter_eq_nil_of is_ne_watcher _ (fun e he => (hnt3 e he).1),
        filter_eq_self_of is_ne_watcher _ (fun e he => (ne_call_events _ _ _ e he).2.2),
        filter_eq_nil_of is_ne_watcher (List.replicate k Ev.cond_wait) (by
          intro e1 he
          rw [(List.mem_replicate.1 he).2]
          rfl)]
      simp [is_ne_watcher, ne_call_registered w.eq cb _ _ hreg]

/-- The event-watcher calls and the waits of a returning `event_queue_timedwait`: it made
`k` waits; the state `u` of its last pop is the entry state (with the waiter registered)
changed only by the wake-ups of those waits; either that pop succeeded, took `nr_events`
from its value in `u` to one less, and the event watcher was called exactly once, with
that new count and direction `-1`; or it failed, `nr_events` is as in `u`, and the event
watcher was not called. -/
theorem timedwait_ne_exact (env : List WaitOutcome) (w : World) (pevent : Bool) (r : Res)
    (cb : Nat) (hreg : w.eq.ne_watcher_cb = some cb)
    (henv : ∀ o ∈ env, ∀ u, same_ne_watcher (o.wake u) u)
    (h : event_queue_timedwait env w pevent = .ok r) :
    ∃ k, k ≤ env.length ∧
      r.trace.filter is_wait = (env.take k).map (fun o => Ev.cond_timedwait o.code) ∧
      ((r.ret = 0 ∧
          r.w.eq.nr_events =
            (wakes (env.take k)
              { w with eq := { w.eq with nr_await := w.eq.nr_await + 1 } }).eq.nr_events
              - 1 ∧
          r.trace.filter is_ne_watcher =
            [Ev.ne_watcher cb w.eq.ne_watcher_data
              ((wakes (env.take k)
                { w with eq := { w.eq with nr_await := w.eq.nr_await + 1 } }).eq.nr_events
                - 1)
              (-1)]) ∨
        (r.ret = -1 ∧
          r.w.eq.nr_events =
            (wakes (env.take k)
              { w with eq := { w.eq with nr_await := w.eq.nr_await + 1 } }).eq.nr_events ∧
          r.trace.filter is_ne_watcher = [])) := by
  obtain ⟨r1, pe1, hl, hr⟩ := timedwait_unfold env w pevent r h
  obtain ⟨k, u, r0, hk, ⟨q2, q3⟩, hp, hr1, _, _, hu⟩ :=
    timedwait_loop_last_pop pevent (fun v => same_ne_watcher v w) env
      { w with eq := { w.eq with nr_await := w.eq.nr_await + 1 } } 0 r1 pe1 ⟨rfl, rfl⟩
      (fun o ho v hv => by
        obtain ⟨a2, a3⟩ := henv o ho v
        exact ⟨a2.trans hv.1, a3.trans hv.2⟩) hl
  obtain ⟨_, hw, _, _⟩ := pop_unsafe_frame u pevent r0 hp
  obtain ⟨_, hc⟩ := pop_unsafe_cases u pevent r0 hp
  simp only [watchers, Prod.mk.injEq] at hw
  have hwt := waits_events (env.take k)
  have hnt1 := call_nt_plain { w.eq with nr_await := w.eq.nr_await + 1 } 1
  have hnt3 := call_nt_plain { r1.w.eq with nr_await := r1.w.eq.nr_await - 1 } (-1)
  rcases hc with ⟨b1, b2, b3, _⟩ | ⟨b1, e, en, _, _, b3, _, b5, _⟩
  · have hret : r1.ret = -1 := by rw [hr1]; exact b1
    have hneg : r1.ret < 0 := by rw [hret]; decide
    have htr : r1.trace = (env.take k).map (fun o => Ev.cond_timedwait o.code) := by
      rw [hr1]
      simp [b3]
    have hcount : r1.w.eq.nr_events = u.eq.nr_events := by
      rw [hr1]
      simp only [b2]
    subst hr
    refine ⟨k, hk, ?_, Or.inr ⟨hret, ?_, ?_⟩⟩
    · simp only [hneg, not_true_eq_false, if_false, List.filter_append, List.append_nil,
        htr]
      rw [filter_eq_nil_of is_wait _ (fun e he => (hnt1 e he).2),
        filter_eq_nil_of is_wait _ (fun e he => (hnt3 e he).2),
        filter_eq_self_of is_wait _ (fun e he => (hwt e he).1)]
      simp
    · rw [← hu]
      exact hcount
    · simp only [hneg, not_true_eq_false, if_false, List.filter_append, List.append_nil,
        htr]
      rw [filter_eq_nil_of is_ne_watcher _ (fun e he => (hnt1 e he).1),
        filter_eq_nil_of is_ne_watcher _ (fun e he => (hnt3 e he).1),
        filter_eq_nil_of is_ne_watcher _ (fun e he => (hwt e he).2.1)]
      rfl
  · have hret : r1.ret = 0 := by rw [hr1]; exact b1
    have hneg : ¬ (r1.ret < 0) := by rw [hret]; decide
    have hcount : r1.w.eq.nr_events = u.eq.nr_events - 1 := by
      rw [hr1]
      exact b5
    have e2 := call_ne_eq r1.w.eq w.eq (u.eq.nr_events - 1) (-1) hcount
      (by rw [hr1]; exact hw.2.1.trans q2) (by rw [hr1]; exact hw.1.trans q3)
    have htr : r1.trace =
        (env.take k).map (fun o => Ev.cond_timedwait o.code) ++ [Ev.eqent_free e] := by
      rw [hr1]
      simp only [b3]
    subst hr
    refine ⟨k, hk, ?_, Or.inl ⟨hret, ?_, ?_⟩⟩
    · simp only [hneg, not_false_eq_true, if_true, e2, htr, List.filter_append]
      rw [filter_eq_nil_of is_wait _ (fun e he => (hnt1 e he).2),
        filter_eq_nil_of is_wait _ (fun e he => (hnt3 e he).2),
        filter_eq_nil_of is_wait _ (fun e he => (ne_call_events _ _ _ e he).1),
        filter_eq_self_of is_wait _ (fun e he => (hwt e he).1)]
      simp [is_wait]
    · rw [← hu]
      exact hcount
    · rw [← hu]
      simp only [hneg, not_false_eq_true, if_true, e2, htr, List.filter_append]
      rw [filter_eq_nil_of is_ne_watcher _ (fun e he => (hnt1 e he).1),
        filter_eq_nil_of is_ne_watcher _ (fun e he => (hnt3 e he).1),
        filter_eq_self_of is_ne_watcher _ (fun e he => (ne_call_events _ _ _ e he).2.2),
        filter_eq_nil_of is_ne_watcher _ (fun e he => (hwt e he).2.1)]
      simp [is_ne_watcher, ne_call_registered w.eq cb _ _ hreg]

/-- C13, as amended (every change of the event count made by `event_queue_post`,
`event_queue_trywait`, `event_queue_wait` and `event_queue_timedwait` comes with exactly
one event-watcher call; teardown makes none): with an event watcher `cb` registered,
* a returning post either returns `0`, has raised `nr_events` by one and has called `cb`
  exactly once, with its context, the new count and direction `+1`, or returns `-1`, has
  left `nr_events` alone and has not called it;
* a returning trywait either returns `0`, has lowered `nr_events` by one and has called
  `cb` exactly once, with the new count and direction `-1`, or returns `-1`, has left
  `nr_events` alone and has not called it;
* a returning wait (the other threads leaving the event-watcher registration alone
  during the waits, free to post and pop) has made some `k` waits, its `k` failed pops
  changed nothing, its last pop lowered `nr_events` by one from the count found after the
  `k`-th wake-up, and it has called `cb` exactly once, with that new count and direction
  `-1`;
* a returning timedwait likewise, or it returns `-1`, has left `nr_events` as found after
  the last wake-up and has not called the event watcher;
* `event_queue_destory` on a well-formed queue of `n` nodes returns with `nr_events`
  taken from `n` to `0` and without any event-watcher call. -/
theorem C13_watcher_tracks_count (w : World) (cb : Nat) (nodes : List (Nat × Nat))
    (hreg : w.eq.ne_watcher_cb = some cb) (hwf : WF w nodes) :
    (∀ (alloc : Option Nat) (x : Nat) (r : Res), event_queue_post alloc w x = .ok r →
      (r.ret = 0 ∧ r.w.eq.nr_events = w.eq.nr_events + 1 ∧
        r.trace.filter is_ne_watcher =
          [Ev.ne_watcher cb w.eq.ne_watcher_data (w.eq.nr_events + 1) 1]) ∨
      (r.ret = -1 ∧ r.w.eq.nr_events = w.eq.nr_events ∧
        r.trace.filter is_ne_watcher = [])) ∧
    (∀ (pevent : Bool) (r : Res), event_queue_trywait w pevent = .ok r →
      (r.ret = 0 ∧ r.w.eq.nr_events = w.eq.nr_events - 1 ∧
        r.trace.filter is_ne_watcher =
          [Ev.ne_watcher cb w.eq.ne_watcher_data (w.eq.nr_events - 1) (-1)]) ∨
      (r.ret = -1 ∧ r.w.eq.nr_events = w.eq.nr_events ∧
        r.trace.filter is_ne_watcher = [])) ∧
    (∀ (env : List WaitOutcome) (pevent : Bool) (r : Res),
      (∀ o ∈ env, ∀ u, same_ne_watcher (o.wake u) u) →
      event_queue_wait env w pevent = .ok r →
      ∃ k, k ≤ env.length ∧
        r.trace.filter is_wait = List.replicate k Ev.cond_wait ∧
        r.w.eq.nr_events =
          (wakes (env.take k)
            { w with eq := { w.eq with nr_await := w.eq.nr_await + 1 } }).eq.nr_events - 1 ∧
        r.trace.filter is_ne_watcher =
          [Ev.ne_watcher cb w.eq.ne_watcher_data
            ((wakes (env.take k)
              { w with eq := { w.eq with nr_await := w.eq.nr_await + 1 } }).eq.nr_events - 1)
            (-1)]) ∧
    (∀ (env : List WaitOutcome) (pevent : Bool) (r : Res),
      (∀ o ∈ env, ∀ u, same_ne_watcher (o.wake u) u) →
      event_queue_timedwait env w pevent = .ok r →
      ∃ k, k ≤ env.length ∧
        r.trace.filter is_wait = (env.take k).map (fun o => Ev.cond_timedwait o.code) ∧
        ((r.ret = 0 ∧
            r.w.eq.nr_events =
              (wakes (env.take k)
                { w with eq := { w.eq with nr_await := w.eq.nr_await + 1 } }).eq.nr_events
                - 1 ∧
            r.trace.filter is_ne_watcher =
              [Ev.ne_watcher cb w.eq.ne_watcher_data
                ((wakes (env.take k)
                  { w with eq := { w.eq with nr_await := w.eq.nr_await + 1 } }).eq.nr_events
                  - 1)
                (-1)]) ∨
          (r.ret = -1 ∧
            r.w.eq.nr_events =
              (wakes (env.take k)
                { w with eq := { w.eq with nr_await := w.eq.nr_await + 1 } }).eq.nr_events ∧
            r.trace.filter is_ne_watcher = []))) ∧
    (∀ fuel, nodes.length < fuel →
      ∃ r, event_queue_destory fuel w = .ok r ∧
        w.eq.nr_events = (nodes.length : Int) ∧ r.w.eq.nr_events = 0 ∧
        r.trace.filter is_ne_watcher = []) := by
  refine ⟨?_, ?_, ?_, ?_, ?_⟩
  · intro alloc x r h
    obtain ⟨_, _, _, a4⟩ := post_calls alloc w x r h
    rcases a4 with ⟨b1, b2, b3⟩ | ⟨b1, b2, b3⟩
    · exact Or.inl ⟨b1, b2, by rw [b3, ne_call_registered w.eq cb _ _ hreg]⟩
    · exact Or.inr ⟨b1, by rw [b2], by rw [b3]; rfl⟩
  · intro pevent r h
    obtain ⟨_, _, _, a4⟩ := trywait_calls w pevent r h
    rcases a4 with ⟨b1, b2, b3⟩ | ⟨b1, b2, b3⟩
    · exact Or.inl ⟨b1, b2, by rw [b3, ne_call_registered w.eq cb _ _ hreg]⟩
    · exact Or.inr ⟨b1, by rw [b2], by rw [b3]; rfl⟩
  · intro env pevent r henv h
    exact wait_ne_exact env w pevent r cb hreg henv h
  · intro env pevent r henv h
    exact timedwait_ne_exact env w pevent r cb hreg henv h
  · intro fuel hf
    obtain ⟨w1, h1, h2, _⟩ := destory_wf w nodes fuel hwf hf
    obtain ⟨_, _, p3, p4, _⟩ := pool_destory_events w1
    refine ⟨_, h1, hwf.count, ?_, ?_⟩
    · simp only [p4]
      exact (wf_nil_fields w1 h2).2.2
    · simp only [List.filter_append, drain_trace_ne, p3, List.append_nil]

/-- Witness for C13: `event_queue_wait` entered on the empty queue `w_empty` (event
watcher `70` with context `7` registered) blocks once and is then served by a post from
another thread: one wait, one release, and exactly one event-watcher call `(0, -1)`. -/
theorem C13_watcher_tracks_count_witness :
    ∃ r, event_queue_wait [o_posted] w_empty true = .ok r ∧
      r.ret = 0 ∧ r.out = some 10 ∧
      r.trace = [Ev.nt_watcher 80 8 2 1, Ev.cond_wait, Ev.eqent_free 1,
                 Ev.ne_watcher 70 7 0 (-1), Ev.nt_watcher 80 8 1 (-1)] ∧
      ∃ k, k ≤ [o_posted].length ∧
        r.trace.filter is_wait = List.replicate k Ev.cond_wait ∧
        r.w.eq.nr_events =
          (wakes ([o_posted].take k)
            { w_empty with
              eq := { w_empty.eq with
                nr_await := w_empty.eq.nr_await + 1 } }).eq.nr_events - 1 ∧
        r.trace.filter is_ne_watcher =
          [Ev.ne_watcher 70 w_empty.eq.ne_watcher_data
            ((wakes ([o_posted].take k)
              { w_empty with
                eq := { w_empty.eq with
                  nr_await := w_empty.eq.nr_await + 1 } }).eq.nr_events - 1)
            (-1)] :=
  ⟨_, rfl, rfl, rfl, rfl,
    (C13_watcher_tracks_count w_empty 70 [] rfl (by decide)).2.2.1 [o_posted] true _
      (by
        intro o ho u
        simp only [List.mem_singleton] at ho
        subst ho
        exact ⟨rfl, rfl⟩)
      rfl⟩

/-- Counterexample to C13 as stated: `event_queue_destory` on the queue `w_two`, which
holds two items and has the event watcher `70` registered, takes `nr_events` from `2` to
`0` without a single event-watcher call, so the counts seen by the watcher do not follow
`nr_events`. -/
theorem C13_destory_counterexample :
    ∃ r, event_queue_destory 3 w_two = .ok r ∧
      w_two.eq.ne_watcher_cb = some 70 ∧ w_two.eq.nr_events = 2 ∧
      r.w.eq.nr_events = 0 ∧
      r.trace = [Ev.eqent_free 1, Ev.lost 10, Ev.eqent_free 2, Ev.lost 20,
                 Ev.memory_pool_del 100] ∧
      ne_replay 70 w_two.eq.ne_watcher_data w_two.eq.nr_events r.trace ≠
        some r.w.eq.nr_events :=
  ⟨_, rfl, rfl, rfl, rfl, rfl, by decide⟩

/-- C14 (teardown drains and reports every remaining item): on a well-formed queue with
nodes `nodes`, `event_queue_destory` returns once it may run more pops than there are
nodes; it reports exactly the payloads of `nodes`, in queue order, releases exactly the
nodes of `nodes`, in queue order, and leaves `head` and `tail` absent and `nr_events = 0`;
on an empty queue it reports nothing. -/
theorem C14_teardown_drains (w : World) (nodes : List (Nat × Nat)) (fuel : Nat)
    (h : WF w nodes) (hf : nodes.length < fuel) :
    ∃ r, event_queue_destory fuel w = .ok r ∧
      r.trace.filter is_lost = nodes.map (fun n => Ev.lost n.2) ∧
      r.trace.filter is_free = nodes.map (fun n => Ev.eqent_free n.1) ∧
      (∀ n ∈ nodes, r.w.mem n.1 = none) ∧
      r.w.eq.head = none ∧ r.w.eq.tail = none ∧ r.w.eq.nr_events = 0 ∧
      (nodes = [] → r.trace.filter is_lost = []) := by
  obtain ⟨w1, h1, h2, _, h4⟩ := destory_wf w nodes fuel h hf
  obtain ⟨p1, p2, _, p4, p5, _⟩ := pool_destory_events w1
  obtain ⟨e1, e2, e3⟩ := wf_nil_fields w1 h2
  have hl : (drain_trace nodes ++ (mempool_eqent_destory w1).2).filter is_lost =
      nodes.map (fun n => Ev.lost n.2) := by
    simp only [List.filter_append, drain_trace_lost, p1, List.append_nil]
  refine ⟨_, h1, hl, ?_, ?_, ?_, ?_, ?_, ?_⟩
  · simp only [List.filter_append, drain_trace_free, p2, List.append_nil]
  · intro n hn
    simp only [p5]
    exact h4 n hn
  · simp only [p4]; exact e1
  · simp only [p4]; exact e2
  · simp only [p4]; exact e3
  · intro hn
    rw [hl, hn]
    rfl

/-- Witness for C14: tearing down `w_two` reports `10` then `20`. -/
theorem C14_teardown_drains_witness :
    ∃ r, event_queue_destory 3 w_two = .ok r ∧
      r.trace.filter is_lost = [((1 : Nat), (10 : Nat)), (2, 20)].map (fun n => Ev.lost n.2) ∧
      r.trace.filter is_free =
        [((1 : Nat), (10 : Nat)), (2, 20)].map (fun n => Ev.eqent_free n.1) ∧
      (∀ n ∈ [((1 : Nat), (10 : Nat)), (2, 20)], r.w.mem n.1 = none) ∧
      r.w.eq.head = none ∧ r.w.eq.tail = none ∧ r.w.eq.nr_events = 0 ∧
      ([((1 : Nat), (10 : Nat)), (2, 20)] = [] → r.trace.filter is_lost = []) :=
  C14_teardown_drains w_two [(1, 10), (2, 20)] 3 (by decide) (by decide)

/-- C15, evaluated on the code: the first `event_queue_init` creates the allocator and the
second one reuses it, but `event_queue_destory` of the first queue deletes the allocator
and resets `mempool_eqent` to `NULL` although the second queue is still initialised and
still holds a node; the same happens on every well-formed queue whatever other queues
exist. -/
theorem C15_allocator_torn_down_early :
    (two_queues_init1.ret = 0 ∧ two_queues_init1.trace = [Ev.memory_pool_new] ∧
      two_queues_init1.w.mempool_eqent = some 100) ∧
    (two_queues_init2.ret = 0 ∧ two_queues_init2.trace = [] ∧
      two_queues_init2.w.mempool_eqent = some 100) ∧
    (∃ r2, two_queues_post2 = .ok r2 ∧ r2.ret = 0 ∧ r2.w.eq.nr_events = 1 ∧
      ∃ r, two_queues_destory1 r2.w = .ok r ∧
        r.trace = [Ev.memory_pool_del 100] ∧ r.w.mempool_eqent = none ∧
        r.w.mem 1 = some { next := none, event := 10 }) ∧
    (∀ (w : World) (nodes : List (Nat × Nat)) (fuel : Nat), WF w nodes →
      nodes.length < fuel →
      ∃ r, event_queue_destory fuel w = .ok r ∧ r.w.mempool_eqent = none) := by
  refine ⟨⟨rfl, rfl, rfl⟩, ⟨rfl, rfl, rfl⟩, ⟨_, rfl, rfl, rfl, _, rfl, rfl, rfl, rfl⟩, ?_⟩
  intro w nodes fuel h hf
  obtain ⟨w1, h1, _⟩ := destory_wf w nodes fuel h hf
  exact ⟨_, h1, (pool_destory_events w1).2.2.2.2.2⟩

/-- C16 (initialisation): whatever the structure held before, when the allocator exists
already or `memory_pool_new` succeeds, `event_queue_init` returns `0` and the queue is
empty (`head` and `tail` absent, both counters `0`, no watcher registered), the nodes
untouched; when the allocator cannot be acquired it returns `-1` and the state is
unchanged.  `event_queue_new` returns `NULL` exactly when `malloc` fails or the allocator
cannot be acquired; a queue it returns is empty. -/
theorem C16_initialisation (pool_new : Option Nat) (w : World)
    (fresh : Option event_queue) :
    ((w.mempool_eqent.isSome ∨ pool_new.isSome) →
      (event_queue_init pool_new w).ret = 0 ∧
      (event_queue_init pool_new w).w.eq = eq_initial ∧
      (event_queue_init pool_new w).w.mem = w.mem) ∧
    ((w.mempool_eqent = none ∧ pool_new = none) →
      (event_queue_init pool_new w).ret = -1 ∧ (event_queue_init pool_new w).w = w) ∧
    ((event_queue_new fresh pool_new w).1 = none ↔
      (fresh = none ∨ (w.mempool_eqent = none ∧ pool_new = none))) ∧
    (∀ q, (event_queue_new fresh pool_new w).1 = some q → q = eq_initial) := by
  have hinit : ∀ v : World, (v.mempool_eqent.isSome ∨ pool_new.isSome) →
      (event_queue_init pool_new v).ret = 0 ∧
      (event_queue_init pool_new v).w.eq = eq_initial ∧
      (event_queue_init pool_new v).w.mem = v.mem := by
    intro v hv
    unfold event_queue_init mempool_eqent_init
    cases hp : v.mempool_eqent with
    | some p => exact ⟨rfl, rfl, rfl⟩
    | none =>
      cases hq : pool_new with
      | none => simp [hp, hq] at hv
      | some p => exact ⟨rfl, rfl, rfl⟩
  have hfail : ∀ v : World, (v.mempool_eqent = none ∧ pool_new = none) →
      (event_queue_init pool_new v).ret = -1 ∧ (event_queue_init pool_new v).w = v := by
    intro v hv
    obtain ⟨h1, h2⟩ := hv
    unfold event_queue_init mempool_eqent_init
    cases v with
    | mk q m p =>
      simp only at h1
      subst h1 h2
      exact ⟨rfl, rfl⟩
  have hnew : ∀ q : event_queue, (event_queue_new (some q) pool_new w).1 =
      if (event_queue_init pool_new { w with eq := q }).ret < 0 then none
      else some (event_queue_init pool_new { w with eq := q }).w.eq := by
    intro q
    simp only [event_queue_new]
    split <;> rfl
  have hsome : ¬ (w.mempool_eqent = none ∧ pool_new = none) →
      (w.mempool_eqent.isSome ∨ pool_new.isSome) := by
    intro hc
    by_contra hn
    apply hc
    simp only [not_or, Bool.not_eq_true, Option.not_isSome, Option.isNone_iff_eq_none]
      at hn
    exact hn
  refine ⟨hinit w, hfail w, ?_, ?_⟩
  · cases fresh with
    | none => simp [event_queue_new]
    | some q =>
      rw [hnew q]
      by_cases hc : w.mempool_eqent = none ∧ pool_new = none
      · have h1 := (hfail { w with eq := q } hc).1
        rw [h1]
        simp only [Int.reduceNeg, Left.neg_neg_iff, zero_lt_one, if_true, true_iff]
        exact Or.inr hc
      · have h1 := (hinit { w with eq := q } (hsome hc)).1
        rw [h1]
        simp [hc]
  · intro q0 hq0
    cases fresh with
    | none => simp [event_queue_new] at hq0
    | some q =>
      rw [hnew q] at hq0
      by_cases hc : w.mempool_eqent = none ∧ pool_new = none
      · have h1 := (hfail { w with eq := q } hc).1
        rw [h1] at hq0
        simp at hq0
      · obtain ⟨h1, h2, _⟩ := hinit { w with eq := q } (hsome hc)
        rw [h1] at hq0
        simp only [lt_self_iff_false, if_false, Option.some.injEq] at hq0
        rw [← hq0, h2]

/-! ## Outcomes of the timed wait -/

theorem last_code_timeout :
    ∀ (l : List WaitOutcome) (pe : Int), last_code l pe = ETIMEDOUT →
      (l = [] ∧ pe = ETIMEDOUT) ∨
        (l.map (fun o => Ev.cond_timedwait o.code)).getLast? =
          some (Ev.cond_timedwait ETIMEDOUT)
  | [], pe, h => Or.inl ⟨rfl, h⟩
  | o :: rest, pe, h => by
    right
    have h1 : last_code rest o.code = ETIMEDOUT := h
    rcases last_code_timeout rest o.code h1 with ⟨e1, e2⟩ | e1
    · subst e1
      simp [e2]
    · cases rest with
      | nil => simp at e1
      | cons o2 rest2 =>
        simp only [List.map_cons, List.getLast?_cons_cons]
        simpa using e1

theorem call_nt_free (q : event_queue) (d : Int) :
    ∀ e ∈ event_queue_call_nt_watcher_unsafe q d, is_free e = false := by
  intro e he
  unfold event_queue_call_nt_watcher_unsafe at he
  cases hq : q.nt_watcher_cb with
  | none => simp [hq] at he
  | some cb =>
    simp only [hq, List.mem_singleton] at he
    subst he
    rfl

theorem call_ne_free (q : event_queue) (d : Int) :
    ∀ e ∈ event_queue_call_ne_watcher_unsafe q d, is_free e = false := by
  intro e he
  unfold event_queue_call_ne_watcher_unsafe at he
  cases hq : q.ne_watcher_cb with
  | none => simp [hq] at he
  | some cb =>
    simp only [hq, List.mem_singleton] at he
    subst he
    rfl

/-- C18 (the only outcomes of `event_queue_timedwait` are an item or a timeout): a
returning call returns `0` or `-1`.  When it returns `-1`, its last condition wait
returned `ETIMEDOUT`, the queue is empty (`head` and `tail` absent) as the pop after that
wait found it, `errno` is set to `ETIMEDOUT`, nothing is stored through the out-pointer,
and there is no event-watcher call and no node release.  When it returns `0`, `errno` is
not written and exactly one node is released: the head `e` of the state `u` in which the
last pop ran (the entry state after the wake-ups of the waits made); its payload is
stored through a non-`NULL` out-pointer, `nr_events` is one less than in `u`, and `head`
is the successor of `e`. -/
theorem C18_timedwait_outcomes (env : List WaitOutcome) (w : World) (pevent : Bool)
    (r : Res) (h : event_queue_timedwait env w pevent = .ok r) :
    (r.ret = 0 ∨ r.ret = -1) ∧
    (r.ret < 0 →
      (r.trace.filter is_wait).getLast? = some (Ev.cond_timedwait ETIMEDOUT) ∧
      r.w.eq.head = none ∧ r.w.eq.tail = none ∧
      r.errno = some ETIMEDOUT ∧ r.out = none ∧
      r.trace.filter is_ne_watcher = [] ∧ r.trace.filter is_free = []) ∧
    (r.ret = 0 →
      r.errno = none ∧
      ∃ (k : Nat) (u : World) (e : Nat) (en : event_queue_entry),
        k ≤ env.length ∧
        u = wakes (env.take k) { w with eq := { w.eq with nr_await := w.eq.nr_await + 1 } } ∧
        u.eq.head = some e ∧ u.mem e = some en ∧
        r.trace.filter is_free = [Ev.eqent_free e] ∧
        r.trace.filter is_wait = (env.take k).map (fun o => Ev.cond_timedwait o.code) ∧
        r.out = (if pevent then some en.event else none) ∧
        r.w.eq.nr_events = u.eq.nr_events - 1 ∧ r.w.eq.head = en.next ∧
        r.w.mem = release u.mem e) := by
  obtain ⟨r1, pe1, hl, hr⟩ := timedwait_unfold env w pevent r h
  obtain ⟨k, u, r0, hk, _, hp, hr1, hpe, hto, hu⟩ :=
    timedwait_loop_last_pop pevent (fun _ => True) env _ 0 r1 pe1 trivial
      (fun _ _ _ _ => trivial) hl
  obtain ⟨hen, hc⟩ := pop_unsafe_cases u pevent r0 hp
  have hnt1 := call_nt_events { w.eq with nr_await := w.eq.nr_await + 1 } 1
  have hnt3 := call_nt_events { r1.w.eq with nr_await := r1.w.eq.nr_await - 1 } (-1)
  have hfr1 := call_nt_free { w.eq with nr_await := w.eq.nr_await + 1 } 1
  have hfr3 := call_nt_free { r1.w.eq with nr_await := r1.w.eq.nr_await - 1 } (-1)
  have hwt := waits_events (env.take k)
  rcases hc with ⟨b1, b2, b3, b4, b5, b6⟩ | ⟨b1, e, en, c1, c2, c3, c4, c5, c6, c7⟩
  · have hret : r1.ret = -1 := by rw [hr1]; exact b1
    have hneg : r1.ret < 0 := by rw [hret]; decide
    have hpe1 : pe1 = ETIMEDOUT := hto (by rw [b1]; decide)
    have htr : r1.trace = (env.take k).map (fun o => Ev.cond_timedwait o.code) := by
      rw [hr1]
      simp [b3]
    have hw : r1.w = u := by rw [hr1]; exact b2
    subst hr
    refine ⟨Or.inr hret, ?_, ?_⟩
    · intro _
      refine ⟨?_, ?_, ?_, ?_, ?_, ?_, ?_⟩
      · simp only [hneg, not_true_eq_false, if_false, List.filter_append, List.append_nil]
        rw [filter_eq_nil_of is_wait _ (fun e he => (hnt1 e he).1),
          filter_eq_nil_of is_wait _ (fun e he => (hnt3 e he).1), htr,
          filter_eq_self_of is_wait _ (fun e he => (hwt e he).1)]
        simp only [List.nil_append, List.append_nil]
        rw [hpe1] at hpe
        rcases last_code_timeout (env.take k) 0 hpe.symm with ⟨_, c⟩ | c
        · exact absurd c (by decide)
        · exact c
      · simp only [hw]; exact b5
      · simp only [hw]; exact b6
      · simp only [hneg, if_true, hpe1]
      · simp only [hr1]; exact b4
      · simp only [hneg, not_true_eq_false, if_false, List.filter_append, List.append_nil]
        rw [filter_eq_nil_of is_ne_watcher _ (fun e he => (hnt1 e he).2.1),
          filter_eq_nil_of is_ne_watcher _ (fun e he => (hnt3 e he).2.1), htr,
          filter_eq_nil_of is_ne_watcher _ (fun e he => (hwt e he).2.1)]
        rfl
      · simp only [hneg, not_true_eq_false, if_false, List.filter_append, List.append_nil]
        rw [filter_eq_nil_of is_free _ hfr1, filter_eq_nil_of is_free _ hfr3, htr,
          filter_eq_nil_of is_free _ (fun e he => (hwt e he).2.2)]
        rfl
    · intro h0
      simp only at h0
      rw [hret] at h0
      exact absurd h0 (by decide)
  · have hret : r1.ret = 0 := by rw [hr1]; exact b1
    have hneg : ¬ (r1.ret < 0) := by rw [hret]; decide
    have htr : r1.trace =
        (env.take k).map (fun o => Ev.cond_timedwait o.code) ++ [Ev.eqent_free e] := by
      rw [hr1]
      simp [c3]
    subst hr
    refine ⟨Or.inl hret, ?_, ?_⟩
    · intro hlt
      exact absurd hlt hneg
    · intro _
      refine ⟨by simp only [hneg, if_false], k, u, e, en, hk, hu, c1, c2, ?_, ?_, ?_, ?_, ?_,
        ?_⟩
      · simp only [hneg, not_false_eq_true, if_true, List.filter_append]
        rw [filter_eq_nil_of is_free _ hfr1, filter_eq_nil_of is_free _ hfr3,
          filter_eq_nil_of is_free _ (call_ne_free r1.w.eq (-1)), htr]
        simp only [List.filter_append]
        rw [filter_eq_nil_of is_free _ (fun e he => (hwt e he).2.2)]
        rfl
      · simp only [hneg, not_false_eq_true, if_true, List.filter_append]
        rw [filter_eq_nil_of is_wait _ (fun e he => (hnt1 e he).1),
          filter_eq_nil_of is_wait _ (fun e he => (hnt3 e he).1),
          filter_eq_nil_of is_wait _ (fun e he => (call_ne_events _ _ e he).1), htr]
        simp only [List.filter_append]
        rw [filter_eq_self_of is_wait _ (fun e he => (hwt e he).1)]
        simp [is_wait]
      · simp only [hr1]; exact c4
      · simp only [hr1]; exact c5
      · simp only [hr1]; exact c6
      · simp only [hr1]; exact c7

/-- Witness for C18: a timeout on the empty queue `w_empty`, and an item from
`w_two`. -/
theorem C18_timedwait_outcomes_witness :
    (∃ r, event_queue_timedwait [o_timeout] w_empty true = .ok r ∧ r.ret = -1 ∧
      ((r.trace.filter is_wait).getLast? = some (Ev.cond_timedwait ETIMEDOUT) ∧
        r.w.eq.head = none ∧ r.w.eq.tail = none ∧
        r.errno = some ETIMEDOUT ∧ r.out = none ∧
        r.trace.filter is_ne_watcher = [] ∧ r.trace.filter is_free = [])) ∧
    (∃ r, event_queue_timedwait [] w_two true = .ok r ∧ r.ret = 0 ∧ r.errno = none) :=
  ⟨⟨_, rfl, rfl,
      (C18_timedwait_outcomes [o_timeout] w_empty true _ rfl).2.1 (by decide)⟩,
    ⟨_, rfl, rfl, ((C18_timedwait_outcomes [] w_two true _ rfl).2.2 rfl).1⟩⟩

/-! ## Retrying after a wait that did not time out -/

theorem timedwait_loop_quiet_prefix (pevent : Bool) (ext : List WaitOutcome) :
    ∀ (pre : List WaitOutcome) (w : World) (pe : Int),
      WF w [] → pe ≠ ETIMEDOUT → quiet pre w →
      (timedwait_loop pevent (pre ++ ext) w pe =
        match timedwait_loop pevent ext (wakes pre w) (last_code pre pe) with
        | .error s => .error s
        | .ok (r1, pe1) =>
          .ok ({ r1 with
            trace := pre.map (fun o => Ev.cond_timedwait o.code) ++ r1.trace }, pe1)) ∧
      WF (wakes pre w) [] ∧ last_code pre pe ≠ ETIMEDOUT
  | [], w, pe, h, hpe, _ => by
    refine ⟨?_, h, hpe⟩
    simp only [List.nil_append, wakes, last_code, List.map_nil]
    cases timedwait_loop pevent ext w pe with
    | error s => rfl
    | ok x => rfl
  | p :: pre, w, pe, h, hpe, hq => by
    obtain ⟨hq1, hq2, hq3⟩ := hq
    obtain ⟨ih1, ih2, ih3⟩ :=
      timedwait_loop_quiet_prefix pevent ext pre (p.wake w) p.code hq2 hq1 hq3
    refine ⟨?_, ih2, ih3⟩
    simp only [List.cons_append, wakes, last_code]
    rw [timedwait_loop_nil_step pevent p _ w pe h hpe, ih1]
    cases timedwait_loop pevent ext (wakes pre (p.wake w)) (last_code pre p.code) with
    | error s => rfl
    | ok x => simp

theorem timedwait_loop_returns (pevent : Bool) :
    ∀ (env : List WaitOutcome) (w : World) (pe : Int), Inv w →
      (∀ o ∈ env, ∀ v, Inv v → Inv (o.wake v)) →
      (¬ WF w [] ∨ pe = ETIMEDOUT ∨ ¬ quiet env w) →
      ∃ r pe1, timedwait_loop pevent env w pe = .ok (r, pe1)
  | env, w, pe, ⟨n :: rest, hw⟩, _, _ => by
    obtain ⟨w1, h1, _⟩ := pop_unsafe_cons w n rest pevent hw
    exact ⟨_, pe, timedwait_loop_pop_ok pevent env w pe _ h1 rfl⟩
  | [], w, pe, ⟨[], hw⟩, _, hc => by
    rcases hc with hc | hc | hc
    · exact absurd hw hc
    · subst hc
      exact ⟨_, _, timedwait_loop_nil_timeout pevent [] w hw⟩
    · exact absurd trivial hc
  | o :: env, w, pe, ⟨[], hw⟩, henv, hc => by
    by_cases hpe : pe = ETIMEDOUT
    · subst hpe
      exact ⟨_, _, timedwait_loop_nil_timeout pevent (o :: env) w hw⟩
    · have hc1 : ¬ quiet (o :: env) w := by
        rcases hc with hc | hc | hc
        · exact absurd hw hc
        · exact absurd hc hpe
        · exact hc
      have hi : Inv (o.wake w) := henv o (by simp) w ⟨[], hw⟩
      have hc2 : ¬ WF (o.wake w) [] ∨ o.code = ETIMEDOUT ∨ ¬ quiet env (o.wake w) := by
        by_contra hn
        simp only [not_or, not_not] at hn
        exact hc1 ⟨hn.2.1, hn.1, hn.2.2⟩
      obtain ⟨r, pe1, hl⟩ := timedwait_loop_returns pevent env (o.wake w) o.code hi
        (fun o1 ho1 => henv o1 (by simp [ho1])) hc2
      rw [timedwait_loop_nil_step pevent o env w pe hw hpe, hl]
      exact ⟨_, _, rfl⟩

theorem quiet_replicate (k : Nat) (w : World) (h : WF w []) :
    quiet (List.replicate k o_einval) w := by
  induction k with
  | zero => trivial
  | succ k ih => exact ⟨by decide, h, ih⟩

theorem timedwait_loop_nil_waiting (pevent : Bool) (w : World) (pe : Int) (h : WF w [])
    (hpe : pe ≠ ETIMEDOUT) :
    timedwait_loop pevent [] w pe = .error .still_waiting := by
  unfold timedwait_loop
  rw [pop_unsafe_nil w pevent h]
  simp [hpe]

theorem timedwait_quiet_waiting (env : List WaitOutcome) (w : World) (pevent : Bool)
    (h : WF w [])
    (hq : quiet env { w with eq := { w.eq with nr_await := w.eq.nr_await + 1 } }) :
    event_queue_timedwait env w pevent = .error .still_waiting := by
  have hw1 : WF { w with eq := { w.eq with nr_await := w.eq.nr_await + 1 } } [] :=
    wf_congr w _ _ h rfl rfl rfl rfl
  obtain ⟨e1, e2, e3⟩ :=
    timedwait_loop_quiet_prefix pevent [] env _ 0 hw1 (by decide) hq
  rw [List.append_nil, timedwait_loop_nil_waiting pevent _ _ e2 e3] at e1
  unfold event_queue_timedwait
  simp only [e1]

theorem timedwait_quiet_more_waits (env ext : List WaitOutcome) (w : World)
    (pevent : Bool) (r : Res) (h : WF w [])
    (hq : quiet env { w with eq := { w.eq with nr_await := w.eq.nr_await + 1 } })
    (hr : event_queue_timedwait (env ++ ext) w pevent = .ok r) :
    env.length < (r.trace.filter is_wait).length := by
  have hw1 : WF { w with eq := { w.eq with nr_await := w.eq.nr_await + 1 } } [] :=
    wf_congr w _ _ h rfl rfl rfl rfl
  obtain ⟨e1, e2, e3⟩ :=
    timedwait_loop_quiet_prefix pevent ext env _ 0 hw1 (by decide) hq
  obtain ⟨r1, pe1, hl, hres⟩ := timedwait_unfold (env ++ ext) w pevent r hr
  rw [e1] at hl
  cases ext with
  | nil =>
    rw [timedwait_loop_nil_waiting pevent _ _ e2 e3] at hl
    cases hl
  | cons o ext1 =>
    rw [timedwait_loop_nil_step pevent o ext1 _ _ e2 e3] at hl
    cases hl2 : timedwait_loop pevent ext1
        (o.wake (wakes env { w with eq := { w.eq with nr_await := w.eq.nr_await + 1 } }))
        o.code with
    | error s => simp [hl2] at hl
    | ok x =>
      obtain ⟨r2, pe2⟩ := x
      simp only [hl2, Except.ok.injEq, Prod.mk.injEq] at hl
      obtain ⟨hl3, _⟩ := hl
      have htr : r1.trace = env.map (fun o => Ev.cond_timedwait o.code) ++
          Ev.cond_timedwait o.code :: r2.trace := by
        rw [← hl3]
      rw [hres]
      simp only [htr, List.filter_append, List.length_append]
      rw [filter_eq_self_of is_wait _ (fun e he => (waits_events env e he).1)]
      simp only [List.length_map, List.filter_cons, is_wait, if_true, List.length_cons]
      omega

/-- C19 (`event_queue_timedwait` retries after every wait result other than
`ETIMEDOUT`): entered on an empty queue with a schedule `env` of `k` waits that all
return a code other than `ETIMEDOUT` and find the queue empty, the call has not returned
when the schedule is used up and asks for a further wait; whenever it returns under a
longer schedule it has made more than `k` condition waits.  On a well-formed queue kept
well formed by the other threads, the call returns within the schedule exactly when the
queue is non-empty at entry or after one of the waits, or one of the waits returns
`ETIMEDOUT`.  With waits that keep failing with `EINVAL` on an empty queue it has not
returned after `k` waits, for every `k`. -/
theorem C19_timedwait_retries (env : List WaitOutcome) (w : World) (pevent : Bool)
    (hinv : Inv w) (henv : ∀ o ∈ env, ∀ v, Inv v → Inv (o.wake v)) :
    ((WF w [] ∧ quiet env { w with eq := { w.eq with nr_await := w.eq.nr_await + 1 } }) →
      event_queue_timedwait env w pevent = .error .still_waiting ∧
      ∀ (ext : List WaitOutcome) (r : Res),
        event_queue_timedwait (env ++ ext) w pevent = .ok r →
          env.length < (r.trace.filter is_wait).length) ∧
    ((∃ r, event_queue_timedwait env w pevent = .ok r) ↔
      ¬ (WF w [] ∧
        quiet env { w with eq := { w.eq with nr_await := w.eq.nr_await + 1 } })) ∧
    (∀ (k : Nat) (pev : Bool),
      event_queue_timedwait (List.replicate k o_einval) w_empty pev =
        .error .still_waiting) := by
  refine ⟨?_, ?_, ?_⟩
  · rintro ⟨h1, h2⟩
    exact ⟨timedwait_quiet_waiting env w pevent h1 h2,
      fun ext r hr => timedwait_quiet_more_waits env ext w pevent r h1 h2 hr⟩
  · constructor
    · rintro ⟨r, hr⟩ ⟨h1, h2⟩
      rw [timedwait_quiet_waiting env w pevent h1 h2] at hr
      cases hr
    · intro hn
      have hc : ¬ WF { w with eq := { w.eq with nr_await := w.eq.nr_await + 1 } } [] ∨
          (0 : Int) = ETIMEDOUT ∨
          ¬ quiet env { w with eq := { w.eq with nr_await := w.eq.nr_await + 1 } } := by
        by_cases hq : quiet env { w with eq := { w.eq with nr_await := w.eq.nr_await + 1 } }
        · left
          intro hw1
          exact hn ⟨wf_congr _ w _ hw1 rfl rfl rfl rfl, hq⟩
        · exact Or.inr (Or.inr hq)
      obtain ⟨r1, pe1, hl⟩ := timedwait_loop_returns pevent env _ 0
        (inv_await w (w.eq.nr_await + 1) hinv) henv hc
      unfold event_queue_timedwait
      simp only [hl]
      exact ⟨_, rfl⟩
  · intro k pev
    exact timedwait_quiet_waiting _ w_empty pev (by decide)
      (quiet_replicate k _ (by decide))

/-- Witness for C19: the empty queue `w_empty` with two wake-ups of code `0` that find
nothing. -/
theorem C19_timedwait_retries_witness :
    ((WF w_empty [] ∧ quiet [o_spurious, o_spurious]
        { w_empty with eq := { w_empty.eq with nr_await := w_empty.eq.nr_await + 1 } }) →
      event_queue_timedwait [o_spurious, o_spurious] w_empty true = .error .still_waiting ∧
      ∀ (ext : List WaitOutcome) (r : Res),
        event_queue_timedwait ([o_spurious, o_spurious] ++ ext) w_empty true = .ok r →
          [o_spurious, o_spurious].length < (r.trace.filter is_wait).length) ∧
    ((∃ r, event_queue_timedwait [o_spurious, o_spurious] w_empty true = .ok r) ↔
      ¬ (WF w_empty [] ∧ quiet [o_spurious, o_spurious]
        { w_empty with eq := { w_empty.eq with nr_await := w_empty.eq.nr_await + 1 } })) ∧
    (∀ (k : Nat) (pev : Bool),
      event_queue_timedwait (List.replicate k o_einval) w_empty pev =
        .error .still_waiting) :=
  C19_timedwait_retries [o_spurious, o_spurious] w_empty true ⟨[], by decide⟩
    (by
      intro o ho v hv
      simp only [List.mem_cons, List.mem_singleton, List.not_mem_nil, or_false, or_self]
        at ho
      subst ho
      exact hv)

/-! ## Refinement of the abstract list queue -/

theorem store_step_refines (op : Op) (w : World) (nodes : List (Nat × Nat))
    (h : WF w nodes)
    (hf : match op with
      | .push (some a) _ => w.mem a = none
      | _ => True) :
    ∃ r nodes1, store_step op w = .ok r ∧ WF r.w nodes1 ∧
      (r.ret, r.out) = (abs_step op (nodes.map Prod.snd)).1 ∧
      nodes1.map Prod.snd = (abs_step op (nodes.map Prod.snd)).2 := by
  cases op with
  | push alloc x =>
    cases alloc with
    | none => exact ⟨_, nodes, rfl, h, rfl, rfl⟩
    | some a =>
      obtain ⟨w1, h1, h2, _⟩ := push_unsafe_wf w nodes a x h hf
      exact ⟨_, _, h1, h2, rfl, by simp [abs_step]⟩
  | pop pevent =>
    cases nodes with
    | nil => exact ⟨_, [], pop_unsafe_nil w pevent h, h, rfl, rfl⟩
    | cons n rest =>
      obtain ⟨w1, h1, h2, _⟩ := pop_unsafe_cons w n rest pevent h
      exact ⟨_, rest, h1, h2, rfl, rfl⟩

theorem run_ops_refines :
    ∀ (ops : List Op) (w : World) (nodes : List (Nat × Nat)),
      WF w nodes → fresh_allocs ops w →
      ∃ w1 nodes1, run_ops ops w = .ok ((abs_run ops (nodes.map Prod.snd)).1, w1) ∧
        WF w1 nodes1 ∧ nodes1.map Prod.snd = (abs_run ops (nodes.map Prod.snd)).2
  | [], w, nodes, h, _ => ⟨w, nodes, rfl, h, rfl⟩
  | op :: rest, w, nodes, h, hf => by
    obtain ⟨r, nodes1, h1, h2, h3, h4⟩ := store_step_refines op w nodes h hf.1
    have hf2 : fresh_allocs rest r.w := by
      have := hf.2
      rw [h1] at this
      exact this
    obtain ⟨w2, nodes2, k1, k2, k3⟩ := run_ops_refines rest r.w nodes1 h2 hf2
    refine ⟨w2, nodes2, ?_, k2, ?_⟩
    · simp only [run_ops, h1, k1, abs_run, h3, h4]
    · simp only [abs_run, k3, h4]

/-- C20 (the linked-list store refines an abstract list queue): on a well-formed queue,
every interleaved sequence of `event_queue_push_unsafe` and `event_queue_pop_unsafe`
calls (allocations at addresses not in use) returns, call by call, what the abstract
list queue returns from the list of queued payloads: a successful push appends its
payload, a failed push and a pop on the empty list return `-1` and change nothing, a pop
on a non-empty list returns `0`, delivers the first payload when an out-pointer is given
and drops it also when the out-pointer is `NULL`; the final queue is well formed, its
payloads are the final abstract list and `nr_events` is the length of that list. -/
theorem C20_store_refines_list (ops : List Op) (w : World) (nodes : List (Nat × Nat))
    (h : WF w nodes) (hf : fresh_allocs ops w) :
    ∃ w1 nodes1, run_ops ops w = .ok ((abs_run ops (nodes.map Prod.snd)).1, w1) ∧
      WF w1 nodes1 ∧ nodes1.map Prod.snd = (abs_run ops (nodes.map Prod.snd)).2 ∧
      w1.eq.nr_events = (((abs_run ops (nodes.map Prod.snd)).2).length : Int) := by
  obtain ⟨w1, nodes1, h1, h2, h3⟩ := run_ops_refines ops w nodes h hf
  refine ⟨w1, nodes1, h1, h2, h3, ?_⟩
  rw [← h3, h2.count]
  simp

/-- Witness for C20: from `w_two` (payloads `10, 20`): pop with a `NULL` out-pointer, push
`30` at address `3`, a failed push, two pops, a pop on the empty queue, push `40` at the
released address `1`. -/
theorem C20_store_refines_list_witness :
    (∃ w1 nodes1,
      run_ops [Op.pop false, Op.push (some 3) 30, Op.push none 99, Op.pop true,
          Op.pop true, Op.pop true, Op.push (some 1) 40] w_two =
        .ok ((abs_run [Op.pop false, Op.push (some 3) 30, Op.push none 99, Op.pop true,
          Op.pop true, Op.pop true, Op.push (some 1) 40]
            ([((1 : Nat), (10 : Nat)), (2, 20)].map Prod.snd)).1, w1) ∧
      WF w1 nodes1 ∧
      nodes1.map Prod.snd =
        (abs_run [Op.pop false, Op.push (some 3) 30, Op.push none 99, Op.pop true,
          Op.pop true, Op.pop true, Op.push (some 1) 40]
            ([((1 : Nat), (10 : Nat)), (2, 20)].map Prod.snd)).2 ∧
      w1.eq.nr_events =
        (((abs_run [Op.pop false, Op.push (some 3) 30, Op.push none 99, Op.pop true,
          Op.pop true, Op.pop true, Op.push (some 1) 40]
            ([((1 : Nat), (10 : Nat)), (2, 20)].map Prod.snd)).2).length : Int)) ∧
    abs_run [Op.pop false, Op.push (some 3) 30, Op.push none 99, Op.pop true,
        Op.pop true, Op.pop true, Op.push (some 1) 40] [10, 20] =
      ([(0, none), (0, none), (-1, none), (0, some 20), (0, some 30), (-1, none),
        (0, none)], [40]) :=
  ⟨C20_store_refines_list
      [Op.pop false, Op.push (some 3) 30, Op.push none 99, Op.pop true,
        Op.pop true, Op.pop true, Op.push (some 1) 40] w_two [(1, 10), (2, 20)]
      (by decide) ⟨trivial, rfl, trivial, trivial, trivial, trivial, rfl, trivial⟩,
    by decide⟩

end EventQueue
